import Mathlib

/-! UnorderedSet: a separate-chaining hash set (src/unordered_set.h)

Shallow embedding of the C++ class template `UnorderedSet<KeyT>`.

* `std::vector<std::list<KeyT>> buckets_` is a `List (List K)`; `size_t size_` is a `Nat`.
* `std::hash<KeyT>` is a parameter `hash : K → Nat`; `operator==` on keys is equality of `K`.
* A subscript `v[i]` on a vector with `i ≥ v.size()` is undefined behaviour. Operations whose
  subscript is not guarded by the code itself (`Insert`, `Rehash` and what calls them) return
  `Option`, with `none` standing for such an out-of-range subscript. `Find` and `Erase` only
  subscript with `hash % size` for `size ≠ 0`, and carry the bound in their definition.
* `size_t` arithmetic: `--size_` wraps from `0` to `2^64 - 1` and is modelled so. `++size_` and
  `buckets_.size() * 2` are modelled without wrap-around, because they exceed `2^64 - 1` only
  for a table holding at least `2^63` buckets or `2^64 - 1` keys, which `std::vector::max_size`
  excludes.
* `LoadFactor()` returns a `float` and is not embedded; what the specification says of the
  load factor is stated on `Size()` and `BucketCount()`.
* Running out of memory: the variants `RehashA`, `ReserveA`, `InsertA`, `newSizedA` and
  `newRangeA` take the number of allocations that still succeed. The construction of a
  vector and every `push_back` are allocations; an exception leaves the member function at
  once, since the class has no handler.
-/

/-- The data members of `UnorderedSet<KeyT>`: the bucket array and the stored counter. -/
structure UnorderedSet (K : Type) where
  buckets : List (List K)
  size : Nat
deriving DecidableEq, Repr

namespace UnorderedSet

set_option linter.unusedSectionVars false
set_option linter.unusedVariables false

variable {K : Type} [DecidableEq K]

/-- Largest value of `size_t` (64-bit). -/
def SIZE_MAX : Nat := 2 ^ 64 - 1

/-- The effect of `--size_` on a `size_t`: wraps from `0` to `SIZE_MAX`. -/
def decr (n : Nat) : Nat := if n = 0 then SIZE_MAX else n - 1

/-- `GetIndex(key, count)`: `count == 0 ? 0 : hash(key) % count`. -/
def GetIndex (hash : K → Nat) (key : K) (count : Nat) : Nat :=
  if count = 0 then 0 else hash key % count

/-- `UnorderedSet()`: no buckets, size 0. -/
def new : UnorderedSet K := { buckets := [], size := 0 }

/-- `UnorderedSet(size_t count)`: `count == 0 ? 1 : count` empty buckets, size 0. -/
def newSized (count : Nat) : UnorderedSet K :=
  { buckets := List.replicate (if count = 0 then 1 else count) [], size := 0 }

/-- `Size()`. -/
def Size (s : UnorderedSet K) : Nat := s.size

/-- `Empty()`. -/
def Empty (s : UnorderedSet K) : Bool := decide (s.size = 0)

/-- `BucketCount()`. -/
def BucketCount (s : UnorderedSet K) : Nat := s.buckets.length

/-- `BucketSize(index)`: 0 when `index >= buckets_.size()`, else the length of that bucket. -/
def BucketSize (s : UnorderedSet K) (index : Nat) : Nat :=
  if h : index ≥ s.buckets.length then 0
  else (s.buckets.get ⟨index, Nat.lt_of_not_ge h⟩).length

/-- `Bucket(key)`: `GetIndex(key, buckets_.size())`. -/
def Bucket (hash : K → Nat) (s : UnorderedSet K) (key : K) : Nat :=
  GetIndex hash key s.buckets.length

/-- `Clear()`: drops the bucket array and resets the counter. -/
def Clear (_s : UnorderedSet K) : UnorderedSet K := { buckets := [], size := 0 }

/-- `Find(key)`: false on an empty bucket array, else `std::find` in the bucket
`buckets_[GetIndex(key, buckets_.size())]`. -/
def Find (hash : K → Nat) (s : UnorderedSet K) (key : K) : Bool :=
  if h : s.buckets.length = 0 then false
  else
    decide (key ∈ s.buckets.get ⟨GetIndex hash key s.buckets.length, by
      unfold GetIndex; rw [if_neg h]; exact Nat.mod_lt _ (Nat.pos_of_ne_zero h)⟩)

/-- `Erase(key)`: nothing on an empty bucket array; else removes the first occurrence of `key`
from its bucket and decrements `size_`, when `std::find` finds one. -/
def Erase (hash : K → Nat) (s : UnorderedSet K) (key : K) : UnorderedSet K :=
  if h : s.buckets.length = 0 then s
  else
    let index := GetIndex hash key s.buckets.length
    let bucket : List K := s.buckets.get ⟨GetIndex hash key s.buckets.length, by
      unfold GetIndex; rw [if_neg h]; exact Nat.mod_lt _ (Nat.pos_of_ne_zero h)⟩
    if key ∈ bucket then
      { buckets := s.buckets.set index (bucket.erase key), size := decr s.size }
    else s

/-- The statement `v[GetIndex(key, v.size())].push_back(key)` on a bucket array `v`;
`none` when the subscript is out of range. -/
def pushKey (hash : K → Nat) (v : List (List K)) (key : K) : Option (List (List K)) :=
  match v[GetIndex hash key v.length]? with
  | none => none
  | some bucket => some (v.set (GetIndex hash key v.length) (bucket ++ [key]))

/-- `Rehash(new_count)`: returns at once when `new_count < size_` or
`new_count == buckets_.size()`; else builds `new_count` empty buckets, walks the old buckets in
order and each bucket front to back, appending every key to
`new_buckets[GetIndex(key, new_count)]`, and installs the new array. -/
def Rehash (hash : K → Nat) (s : UnorderedSet K) (new_count : Nat) : Option (UnorderedSet K) :=
  if new_count < s.size ∨ new_count = s.buckets.length then some s
  else
    (s.buckets.foldlM (fun nb (bucket : List K) => bucket.foldlM (pushKey hash) nb)
        (List.replicate new_count ([] : List K))).map
      (fun nb => { buckets := nb, size := s.size })

/-- `Reserve(new_count)`: `Rehash(new_count)` when `new_count > buckets_.size()`. -/
def Reserve (hash : K → Nat) (s : UnorderedSet K) (new_count : Nat) : Option (UnorderedSet K) :=
  if new_count > s.buckets.length then Rehash hash s new_count else some s

/-- The growth step of `Insert`: `if (size_ >= buckets_.size()) Rehash(empty ? 1 : 2 * size)`. -/
def grow (hash : K → Nat) (s : UnorderedSet K) : Option (UnorderedSet K) :=
  if s.size ≥ s.buckets.length then
    Rehash hash s (if s.buckets.isEmpty then 1 else s.buckets.length * 2)
  else some s

/-- `Insert(const KeyT&)`: returns at once when `Find(key)`; else grows if
`size_ >= buckets_.size()`, appends the key to its bucket and increments `size_`. -/
def Insert (hash : K → Nat) (s : UnorderedSet K) (key : K) : Option (UnorderedSet K) :=
  if Find hash s key then some s
  else
    (grow hash s).bind fun s1 =>
      (pushKey hash s1.buckets key).map fun nb => { buckets := nb, size := s1.size + 1 }

/-- `Insert(KeyT&&)`: the same statements as the lvalue overload; the key is moved into the
bucket instead of copied, which stores the same value. -/
def InsertRvalue (hash : K → Nat) (s : UnorderedSet K) (key : K) : Option (UnorderedSet K) :=
  if Find hash s key then some s
  else
    (grow hash s).bind fun s1 =>
      (pushKey hash s1.buckets key).map fun nb => { buckets := nb, size := s1.size + 1 }

/-- `UnorderedSet(Iterator first, Iterator last)`: `distance == 0 ? 1 : distance` empty
buckets, size 0, then `Insert(*it)` for every element in order. -/
def newRange (hash : K → Nat) (xs : List K) : Option (UnorderedSet K) :=
  xs.foldlM (Insert hash)
    { buckets := List.replicate (if xs.length = 0 then 1 else xs.length) [], size := 0 }

/-- `UnorderedSet(const UnorderedSet& other)`: copies both members. -/
def copyCtor (other : UnorderedSet K) : UnorderedSet K :=
  { buckets := other.buckets, size := other.size }

/-- `UnorderedSet(UnorderedSet&& other)`: returns the new object and `other` afterwards
(its bucket array moved from, hence empty, and its counter set to 0). -/
def moveCtor (other : UnorderedSet K) : UnorderedSet K × UnorderedSet K :=
  ({ buckets := other.buckets, size := other.size }, { buckets := [], size := 0 })

/-- `operator=(const UnorderedSet& other)` for `this != &other`. -/
def copyAssign (_self other : UnorderedSet K) : UnorderedSet K :=
  { buckets := other.buckets, size := other.size }

/-- `operator=(UnorderedSet&& other)` for `this != &other`: returns `*this` and `other`
afterwards. -/
def moveAssign (_self other : UnorderedSet K) : UnorderedSet K × UnorderedSet K :=
  ({ buckets := other.buckets, size := other.size }, { buckets := [], size := 0 })

/-- The mutating member functions a client can call on one table. -/
inductive Op (K : Type) where
  | insert (key : K)
  | erase (key : K)
  | rehash (n : Nat)
  | reserve (n : Nat)
  | clear
deriving DecidableEq, Repr

/-- One call of a mutating member function. -/
def Op.apply (hash : K → Nat) (s : UnorderedSet K) : Op K → Option (UnorderedSet K)
  | .insert key => Insert hash s key
  | .erase key => some (Erase hash s key)
  | .rehash n => Rehash hash s n
  | .reserve n => Reserve hash s n
  | .clear => some (Clear s)

/-- A sequence of calls, left to right. -/
def run (hash : K → Nat) (s : UnorderedSet K) (ops : List (Op K)) : Option (UnorderedSet K) :=
  ops.foldlM (Op.apply hash) s

/-- The three constructors that build a table from scratch. -/
inductive Ctor (K : Type) where
  | default
  | sized (count : Nat)
  | range (xs : List K)
deriving DecidableEq, Repr

/-- The table a constructor builds. -/
def Ctor.build (hash : K → Nat) : Ctor K → Option (UnorderedSet K)
  | .default => some new
  | .sized count => some (newSized count)
  | .range xs => newRange hash xs

/-- A constructor call followed by a sequence of member calls. -/
def history (hash : K → Nat) (c : Ctor K) (ops : List (Op K)) : Option (UnorderedSet K) :=
  (c.build hash).bind fun s => run hash s ops

/-- An `Insert` or an `Erase` call. -/
inductive Update (K : Type) where
  | insert (key : K)
  | erase (key : K)
deriving DecidableEq, Repr

/-- The member call an update stands for. -/
def Update.toOp : Update K → Op K
  | .insert key => Op.insert key
  | .erase key => Op.erase key

/-- One update replayed on a mathematical set: insert adds the key, erase removes it. -/
def Update.replay (A : Finset K) : Update K → Finset K
  | .insert key => Insert.insert key A
  | .erase key => A.erase key

/-- The mathematical set obtained by replaying a sequence of updates on the empty set. -/
def abstractSet (us : List (Update K)) : Finset K :=
  us.foldl Update.replay ∅

/-- A statement of a client program over several table objects, which are numbered in the
order of their construction. A statement naming an object that does not exist is not a
program statement and is skipped. -/
inductive Cmd (K : Type) where
  | construct (c : Ctor K)
  | call (obj : Nat) (op : Op K)
  | copyConstruct (src : Nat)
  | moveConstruct (src : Nat)
  | copyAssign (dst src : Nat)
  | moveAssign (dst src : Nat)
deriving DecidableEq, Repr

/-- One statement on the list of live objects. Copy and move construction append the new
object; move construction and move assignment also leave the source in its moved-from
state. Both assignment operators do nothing when `this == &other`. -/
def Cmd.step (hash : K → Nat) (w : List (UnorderedSet K)) :
    Cmd K → Option (List (UnorderedSet K))
  | .construct c => (c.build hash).map fun s => w ++ [s]
  | .call obj op =>
    match w[obj]? with
    | none => some w
    | some s => (op.apply hash s).map fun t => w.set obj t
  | .copyConstruct src =>
    match w[src]? with
    | none => some w
    | some s => some (w ++ [copyCtor s])
  | .moveConstruct src =>
    match w[src]? with
    | none => some w
    | some s => some (w.set src (moveCtor s).2 ++ [(moveCtor s).1])
  | .copyAssign dst src =>
    if dst = src then some w
    else
      match w[dst]?, w[src]? with
      | some d, some s => some (w.set dst (UnorderedSet.copyAssign d s))
      | _, _ => some w
  | .moveAssign dst src =>
    if dst = src then some w
    else
      match w[dst]?, w[src]? with
      | some d, some s => some ((w.set dst (UnorderedSet.moveAssign d s).1).set src (UnorderedSet.moveAssign d s).2)
      | _, _ => some w

/-- A client program run from no objects. -/
def program (hash : K → Nat) (cmds : List (Cmd K)) : Option (List (UnorderedSet K)) :=
  cmds.foldlM (Cmd.step hash) []

/-- Whether `Insert(key)` reaches its `Rehash` call: the key is not found and
`size_ >= buckets_.size()`. -/
def growthTriggered (hash : K → Nat) (s : UnorderedSet K) (key : K) : Bool :=
  !Find hash s key && decide (s.size ≥ s.buckets.length)

/-- The bucket count is tight for the number of stored keys: both are 0, or the bucket count
is a power of two that is at least `size` and less than twice `size`. -/
def Tight (s : UnorderedSet K) : Prop :=
  (s.buckets.length = 0 ∧ s.size = 0) ∨
    ∃ e, s.buckets.length = 2 ^ e ∧ s.size ≤ 2 ^ e ∧ 2 ^ e < 2 * s.size

/-- Result of a step that allocates memory. `fuel` is the number of allocations that still
succeed; the allocation after them throws `std::bad_alloc`. `undefined` stands for an
out-of-range subscript. -/
inductive Alloc (σ : Type) where
  | ok (a : σ) (fuel : Nat)
  | badAlloc
  | undefined
deriving DecidableEq, Repr

/-- Result of a member call when memory can run out: the call returns and leaves the table
`s`, or an exception leaves the call and the table is `s`, or the behaviour is undefined.
No member function catches an exception. -/
inductive Outcome (K : Type) where
  | done (s : UnorderedSet K) (fuel : Nat)
  | threw (s : UnorderedSet K)
  | undefined
deriving DecidableEq, Repr

/-- Result of a constructor when memory can run out: an exception thrown in a constructor
leaves no object. -/
inductive Built (K : Type) where
  | built (s : UnorderedSet K) (fuel : Nat)
  | failed
  | undefined
deriving DecidableEq, Repr

/-- `v[GetIndex(key, v.size())].push_back(key)` with the allocation of the list node;
`push_back` has no effect when it throws. -/
def pushKeyA (hash : K → Nat) (v : List (List K)) (key : K) (fuel : Nat) :
    Alloc (List (List K)) :=
  match v[GetIndex hash key v.length]? with
  | none => Alloc.undefined
  | some bucket =>
    match fuel with
    | 0 => Alloc.badAlloc
    | f + 1 => Alloc.ok (v.set (GetIndex hash key v.length) (bucket ++ [key])) f

/-- The inner loop of `Rehash` over one old bucket, with allocation. -/
def fillA (hash : K → Nat) : List K → List (List K) → Nat → Alloc (List (List K))
  | [], v, fuel => Alloc.ok v fuel
  | key :: rest, v, fuel =>
    match pushKeyA hash v key fuel with
    | Alloc.ok v1 f1 => fillA hash rest v1 f1
    | Alloc.badAlloc => Alloc.badAlloc
    | Alloc.undefined => Alloc.undefined

/-- The outer loop of `Rehash` over the old buckets, with allocation. -/
def fillAllA (hash : K → Nat) : List (List K) → List (List K) → Nat → Alloc (List (List K))
  | [], v, fuel => Alloc.ok v fuel
  | bucket :: rest, v, fuel =>
    match fillA hash bucket v fuel with
    | Alloc.ok v1 f1 => fillAllA hash rest v1 f1
    | Alloc.badAlloc => Alloc.badAlloc
    | Alloc.undefined => Alloc.undefined

/-- `Rehash(new_count)` when memory can run out. The construction of the local vector
`new_buckets` is one allocation, each `push_back` into it another. An exception leaves the
function before `buckets_ = std::move(new_buckets)`, which does not throw. -/
def RehashA (hash : K → Nat) (s : UnorderedSet K) (new_count : Nat) (fuel : Nat) : Outcome K :=
  if new_count < s.size ∨ new_count = s.buckets.length then Outcome.done s fuel
  else
    match fuel with
    | 0 => Outcome.threw s
    | f + 1 =>
      match fillAllA hash s.buckets (List.replicate new_count ([] : List K)) f with
      | Alloc.ok nb f1 => Outcome.done { buckets := nb, size := s.size } f1
      | Alloc.badAlloc => Outcome.threw s
      | Alloc.undefined => Outcome.undefined

/-- `Reserve(new_count)` when memory can run out. -/
def ReserveA (hash : K → Nat) (s : UnorderedSet K) (new_count : Nat) (fuel : Nat) : Outcome K :=
  if new_count > s.buckets.length then RehashA hash s new_count fuel else Outcome.done s fuel

/-- The growth step of `Insert` when memory can run out. -/
def growA (hash : K → Nat) (s : UnorderedSet K) (fuel : Nat) : Outcome K :=
  if s.size ≥ s.buckets.length then
    RehashA hash s (if s.buckets.isEmpty then 1 else s.buckets.length * 2) fuel
  else Outcome.done s fuel

/-- `Insert(key)` when memory can run out: an exception of the growth step leaves `Insert`
at once; an exception of the final `push_back` leaves it with the bucket array as the
growth step left it and `size_` not incremented. -/
def InsertA (hash : K → Nat) (s : UnorderedSet K) (key : K) (fuel : Nat) : Outcome K :=
  if Find hash s key then Outcome.done s fuel
  else
    match growA hash s fuel with
    | Outcome.done s1 f1 =>
      match pushKeyA hash s1.buckets key f1 with
      | Alloc.ok nb f2 => Outcome.done { buckets := nb, size := s1.size + 1 } f2
      | Alloc.badAlloc => Outcome.threw s1
      | Alloc.undefined => Outcome.undefined
    | Outcome.threw s1 => Outcome.threw s1
    | Outcome.undefined => Outcome.undefined

/-- `UnorderedSet(size_t count)` when memory can run out: the bucket vector is one
allocation. -/
def newSizedA (count : Nat) (fuel : Nat) : Built K :=
  match fuel with
  | 0 => Built.failed
  | f + 1 => Built.built (newSized count) f

/-- The loop of the range constructor when memory can run out. -/
def insertAllA (hash : K → Nat) : List K → UnorderedSet K → Nat → Built K
  | [], s, fuel => Built.built s fuel
  | key :: rest, s, fuel =>
    match InsertA hash s key fuel with
    | Outcome.done s1 f1 => insertAllA hash rest s1 f1
    | Outcome.threw _ => Built.failed
    | Outcome.undefined => Built.undefined

/-- `UnorderedSet(Iterator first, Iterator last)` when memory can run out. -/
def newRangeA (hash : K → Nat) (xs : List K) (fuel : Nat) : Built K :=
  match fuel with
  | 0 => Built.failed
  | f + 1 =>
    insertAllA hash xs
      { buckets := List.replicate (if xs.length = 0 then 1 else xs.length) [], size := 0 } f

/-- Every key stored in bucket `i` of the bucket array `v` hashes to `i` modulo the length
of `v`. -/
def Placed (hash : K → Nat) (v : List (List K)) : Prop :=
  ∀ i b, v[i]? = some b → ∀ k ∈ b, hash k % v.length = i

/-- The representation invariant of a table: the counter is the number of stored keys, every
key sits in the bucket of its hash, no key is stored twice, and there are at least as many
buckets as keys. -/
structure Inv (hash : K → Nat) (s : UnorderedSet K) : Prop where
  count : s.size = (s.buckets.map List.length).sum
  placed : Placed hash s.buckets
  nodup : s.buckets.flatten.Nodup
  cap : s.size ≤ s.buckets.length

/-! ## Bucket arrays -/

theorem GetIndex_lt (hash : K → Nat) (key : K) {n : Nat} (h : 0 < n) :
    GetIndex hash key n < n := by
  unfold GetIndex
  rw [if_neg (Nat.pos_iff_ne_zero.mp h)]
  exact Nat.mod_lt _ h

theorem GetIndex_pos (hash : K → Nat) (key : K) {n : Nat} (h : 0 < n) :
    GetIndex hash key n = hash key % n := by
  unfold GetIndex
  rw [if_neg (Nat.pos_iff_ne_zero.mp h)]

theorem split_at {α : Type} {v : List α} {i : Nat} {b : α} (h : v[i]? = some b) :
    v = v.take i ++ b :: v.drop (i + 1) ∧
      ∀ c, v.set i c = v.take i ++ c :: v.drop (i + 1) := by
  obtain ⟨hi, hb⟩ := List.getElem?_eq_some.mp h
  refine ⟨?_, fun c => ?_⟩
  · conv_lhs => rw [← List.take_append_drop i v, List.drop_eq_getElem_cons hi, hb]
  · rw [List.set_eq_take_append_cons_drop, if_pos hi]

theorem flatten_set_perm {v : List (List K)} {i : Nat} {b : List K} (h : v[i]? = some b)
    (key : K) : (v.set i (b ++ [key])).flatten.Perm (key :: v.flatten) := by
  obtain ⟨h1, h2⟩ := split_at h
  rw [h2]
  conv_rhs => rw [h1]
  simp only [List.flatten_append, List.flatten_cons]
  have : (b ++ [key] ++ (v.drop (i + 1)).flatten).Perm (key :: (b ++ (v.drop (i + 1)).flatten)) := by
    rw [List.append_assoc]
    exact List.perm_middle
  exact (List.Perm.append_left _ this).trans List.perm_middle

theorem flatten_erase_perm {v : List (List K)} {i : Nat} {b : List K} (h : v[i]? = some b)
    {key : K} (hk : key ∈ b) : v.flatten.Perm (key :: (v.set i (b.erase key)).flatten) := by
  obtain ⟨h1, h2⟩ := split_at h
  rw [h2]
  conv_lhs => rw [h1]
  simp only [List.flatten_append, List.flatten_cons]
  have : (b ++ (v.drop (i + 1)).flatten).Perm
      (key :: (b.erase key ++ (v.drop (i + 1)).flatten)) :=
    List.Perm.append_right _ (List.perm_cons_erase hk)
  exact (List.Perm.append_left _ this).trans List.perm_middle

theorem length_flatten_eq (v : List (List K)) :
    v.flatten.length = (v.map List.length).sum := List.length_flatten v

theorem mem_flatten_iff {v : List (List K)} {key : K} :
    key ∈ v.flatten ↔ ∃ (i : Nat) (b : List K), v[i]? = some b ∧ key ∈ b := by
  rw [List.mem_flatten]
  constructor
  · rintro ⟨b, hb, hk⟩
    obtain ⟨i, hi⟩ := List.mem_iff_getElem?.mp hb
    exact ⟨i, b, hi, hk⟩
  · rintro ⟨i, b, hi, hk⟩
    exact ⟨b, List.mem_iff_getElem?.mpr ⟨i, hi⟩, hk⟩

/-! ## Find -/

theorem Find_iff (hash : K → Nat) (s : UnorderedSet K) (key : K) :
    Find hash s key = true ↔
      ∃ b, s.buckets[GetIndex hash key s.buckets.length]? = some b ∧ key ∈ b := by
  unfold Find
  by_cases h : s.buckets.length = 0
  · have hnil : s.buckets = [] := List.length_eq_zero.mp h
    simp [hnil]
  · rw [dif_neg h]
    have hlt := GetIndex_lt hash key (Nat.pos_of_ne_zero h)
    simp [List.getElem?_eq_getElem hlt]

theorem Find_iff_mem {hash : K → Nat} {s : UnorderedSet K} (hp : Placed hash s.buckets)
    (key : K) : Find hash s key = true ↔ key ∈ s.buckets.flatten := by
  rw [Find_iff, mem_flatten_iff]
  constructor
  · rintro ⟨b, hb, hk⟩
    exact ⟨_, b, hb, hk⟩
  · rintro ⟨i, b, hb, hk⟩
    have hi : i < s.buckets.length := (List.getElem?_eq_some.mp hb).1
    have := hp i b hb key hk
    rw [GetIndex_pos hash key (by omega), this]
    exact ⟨b, hb, hk⟩

/-! ## Rehash -/

theorem pushKey_eq (hash : K → Nat) {v : List (List K)} (key : K) (h : 0 < v.length) :
    ∃ b, v[GetIndex hash key v.length]? = some b ∧
      pushKey hash v key = some (v.set (GetIndex hash key v.length) (b ++ [key])) := by
  have hlt := GetIndex_lt hash key h
  refine ⟨v[GetIndex hash key v.length], List.getElem?_eq_getElem hlt, ?_⟩
  unfold pushKey
  rw [List.getElem?_eq_getElem hlt]

theorem Placed_push {hash : K → Nat} {v : List (List K)} (hp : Placed hash v) {key : K}
    {b : List K} (h0 : 0 < v.length) (hb : v[GetIndex hash key v.length]? = some b) :
    Placed hash (v.set (GetIndex hash key v.length) (b ++ [key])) := by
  intro i c hc k hk
  rw [List.length_set]
  rw [List.getElem?_set] at hc
  split at hc
  · rename_i hi
    split at hc
    · cases hc
      rcases List.mem_append.mp hk with hk | hk
      · rw [← hi]; exact hp _ b hb k hk
      · rw [List.mem_singleton] at hk
        rw [hk, ← hi, GetIndex_pos hash key h0]
    · cases hc
  · exact hp i c hc k hk

theorem Placed_replicate (hash : K → Nat) (n : Nat) :
    Placed hash (List.replicate n ([] : List K)) := by
  intro i b hb k hk
  rw [List.getElem?_replicate] at hb
  split at hb
  · cases hb; cases hk
  · cases hb

theorem flatten_replicate_nil (n : Nat) :
    (List.replicate n ([] : List K)).flatten = [] := by
  induction n with
  | zero => rfl
  | succ n ih => rw [List.replicate_succ, List.flatten_cons, ih]; rfl

theorem pushAll_spec (hash : K → Nat) (keys : List K) :
    ∀ v : List (List K), 0 < v.length → Placed hash v →
      ∃ w, keys.foldlM (pushKey hash) v = some w ∧ w.length = v.length ∧ Placed hash w ∧
        w.flatten.Perm (v.flatten ++ keys) := by
  induction keys with
  | nil =>
    intro v _ hp
    exact ⟨v, rfl, rfl, hp, by simp⟩
  | cons k ks ih =>
    intro v h0 hp
    obtain ⟨b, hb, hpush⟩ := pushKey_eq hash k h0
    have hp1 := Placed_push hp h0 hb
    obtain ⟨w, hw, hlen, hpw, hperm⟩ :=
      ih (v.set (GetIndex hash k v.length) (b ++ [k])) (by rw [List.length_set]; exact h0) hp1
    refine ⟨w, ?_, ?_, hpw, ?_⟩
    · rw [List.foldlM_cons, hpush]
      exact hw
    · rw [hlen, List.length_set]
    · refine hperm.trans ?_
      refine ((flatten_set_perm hb k).append_right ks).trans ?_
      exact List.perm_middle.symm

theorem foldlM_flatten {α β : Type} (f : β → α → Option β) (bs : List (List α)) :
    ∀ v : β, bs.foldlM (fun nb (b : List α) => b.foldlM f nb) v = bs.flatten.foldlM f v := by
  induction bs with
  | nil => intro v; rfl
  | cons b bs ih =>
    intro v
    rw [List.foldlM_cons, List.flatten_cons, List.foldlM_append]
    congr 1
    funext w
    exact ih w

theorem Rehash_exec (hash : K → Nat) {s : UnorderedSet K}
    (hc : s.size = (s.buckets.map List.length).sum) {n : Nat}
    (hn : ¬ (n < s.size ∨ n = s.buckets.length)) :
    ∃ w, Rehash hash s n = some { buckets := w, size := s.size } ∧ w.length = n ∧
      Placed hash w ∧ w.flatten.Perm s.buckets.flatten := by
  unfold Rehash
  rw [if_neg hn, foldlM_flatten]
  rcases Nat.eq_zero_or_pos n with h0 | h0
  · have hsz : s.size = 0 := by omega
    have hfl : s.buckets.flatten = [] := by
      apply List.length_eq_zero.mp
      rw [length_flatten_eq, ← hc, hsz]
    rw [hfl, h0]
    refine ⟨[], rfl, rfl, ?_, List.Perm.refl _⟩
    intro i b hb
    cases hb
  · obtain ⟨w, hw, hlen, hpw, hperm⟩ :=
      pushAll_spec hash s.buckets.flatten (List.replicate n []) (by simpa using h0)
        (Placed_replicate hash n)
    refine ⟨w, ?_, ?_, hpw, ?_⟩
    · rw [hw]; rfl
    · rw [hlen, List.length_replicate]
    · rw [flatten_replicate_nil, List.nil_append] at hperm
      exact hperm

theorem Rehash_skip (hash : K → Nat) (s : UnorderedSet K) {n : Nat}
    (hn : n < s.size ∨ n = s.buckets.length) : Rehash hash s n = some s := by
  unfold Rehash
  rw [if_pos hn]

theorem Inv_of_perm {hash : K → Nat} {s : UnorderedSet K} (hI : Inv hash s)
    {w : List (List K)} (hp : Placed hash w) (hperm : w.flatten.Perm s.buckets.flatten)
    (hcap : s.size ≤ w.length) : Inv hash { buckets := w, size := s.size } := by
  refine ⟨?_, hp, hperm.nodup_iff.mpr hI.nodup, hcap⟩
  show s.size = (w.map List.length).sum
  rw [← length_flatten_eq, hperm.length_eq, length_flatten_eq, ← hI.count]

theorem Rehash_spec {hash : K → Nat} {s : UnorderedSet K} (hI : Inv hash s) (n : Nat) :
    ∃ t, Rehash hash s n = some t ∧ Inv hash t ∧ t.size = s.size ∧
      t.buckets.flatten.Perm s.buckets.flatten ∧
      ((n < s.size ∨ n = s.buckets.length) → t = s) ∧
      (¬ (n < s.size ∨ n = s.buckets.length) → t.buckets.length = n) := by
  by_cases hn : n < s.size ∨ n = s.buckets.length
  · exact ⟨s, Rehash_skip hash s hn, hI, rfl, List.Perm.refl _, fun _ => rfl,
      fun h => absurd hn h⟩
  · obtain ⟨w, hw, hlen, hpw, hperm⟩ := Rehash_exec hash hI.count hn
    refine ⟨_, hw, Inv_of_perm hI hpw hperm (by rw [hlen]; omega), rfl, hperm,
      fun h => absurd h hn, fun _ => hlen⟩

/-! ## Insert -/

theorem grow_spec {hash : K → Nat} {s : UnorderedSet K} (hI : Inv hash s) :
    ∃ t, grow hash s = some t ∧ Inv hash t ∧ t.size = s.size ∧
      t.buckets.flatten.Perm s.buckets.flatten ∧ t.size < t.buckets.length ∧
      (s.size < s.buckets.length → t = s) ∧
      (s.buckets.length ≤ s.size →
        t.buckets.length = if s.buckets.length = 0 then 1 else s.buckets.length * 2) := by
  unfold grow
  have hcap := hI.cap
  by_cases h : s.size ≥ s.buckets.length
  · rw [if_pos h]
    have hemp : s.buckets.isEmpty = decide (s.buckets.length = 0) := by
      cases s.buckets <;> simp
    rw [hemp]
    by_cases h0 : s.buckets.length = 0
    · simp only [h0, decide_True, if_true]
      obtain ⟨t, ht, hIt, hsz, hperm, _, hlen⟩ := Rehash_spec hI 1
      have hno : ¬ (1 < s.size ∨ 1 = s.buckets.length) := by omega
      have hl := hlen hno
      exact ⟨t, ht, hIt, hsz, hperm, by omega, fun hlt => by omega, fun _ => hl⟩
    · simp only [h0, decide_False, if_false, Bool.false_eq_true]
      obtain ⟨t, ht, hIt, hsz, hperm, _, hlen⟩ := Rehash_spec hI (s.buckets.length * 2)
      have hno : ¬ (s.buckets.length * 2 < s.size ∨ s.buckets.length * 2 = s.buckets.length) := by
        omega
      have hl := hlen hno
      exact ⟨t, ht, hIt, hsz, hperm, by omega, fun hlt => by omega, fun _ => hl⟩
  · rw [if_neg h]
    exact ⟨s, rfl, hI, rfl, List.Perm.refl _, by omega, fun _ => rfl, fun hle => by omega⟩

theorem Insert_present (hash : K → Nat) (s : UnorderedSet K) (key : K)
    (h : Find hash s key = true) : Insert hash s key = some s := by
  unfold Insert
  rw [if_pos h]

theorem Insert_absent {hash : K → Nat} {s : UnorderedSet K} (hI : Inv hash s) {key : K}
    (h : Find hash s key = false) :
    ∃ t, Insert hash s key = some t ∧ Inv hash t ∧ t.size = s.size + 1 ∧
      t.buckets.flatten.Perm (key :: s.buckets.flatten) ∧
      (s.size < s.buckets.length → t.buckets.length = s.buckets.length) ∧
      (s.buckets.length ≤ s.size →
        t.buckets.length = if s.buckets.length = 0 then 1 else s.buckets.length * 2) := by
  obtain ⟨g, hg, hIg, hsz, hperm, hlt, hsame, hgrow⟩ := grow_spec hI
  have h0 : 0 < g.buckets.length := by omega
  obtain ⟨b, hb, hpush⟩ := pushKey_eq hash key h0
  have hnot : key ∉ g.buckets.flatten := by
    intro hmem
    have := (Find_iff_mem hI.placed key).mpr (hperm.mem_iff.mp hmem)
    rw [h] at this
    cases this
  have hp1 := flatten_set_perm hb key
  refine ⟨{ buckets := g.buckets.set (GetIndex hash key g.buckets.length) (b ++ [key]),
            size := g.size + 1 }, ?_, ⟨?_, ?_, ?_, ?_⟩, ?_, ?_, ?_, ?_⟩
  · unfold Insert
    rw [h, hg]
    simp only [Bool.false_eq_true, if_false, Option.some_bind, hpush, Option.map_some']
  · show g.size + 1 = _
    rw [← length_flatten_eq, hp1.length_eq, List.length_cons, length_flatten_eq, ← hIg.count]
  · exact Placed_push hIg.placed h0 hb
  · exact hp1.nodup_iff.mpr (List.nodup_cons.mpr ⟨hnot, hIg.nodup⟩)
  · show g.size + 1 ≤ (g.buckets.set _ _).length
    rw [List.length_set]; omega
  · show g.size + 1 = s.size + 1
    rw [hsz]
  · exact hp1.trans (List.Perm.cons key hperm)
  · intro hlt2
    show (g.buckets.set _ _).length = _
    rw [List.length_set, hsame hlt2]
  · intro hle
    show (g.buckets.set _ _).length = _
    rw [List.length_set, hgrow hle]

theorem Insert_spec {hash : K → Nat} {s : UnorderedSet K} (hI : Inv hash s) (key : K) :
    ∃ t, Insert hash s key = some t ∧ Inv hash t := by
  cases h : Find hash s key
  · obtain ⟨t, ht, hIt, _⟩ := Insert_absent hI h
    exact ⟨t, ht, hIt⟩
  · exact ⟨s, Insert_present hash s key h, hI⟩

/-! ## Erase -/

theorem Erase_absent (hash : K → Nat) (s : UnorderedSet K) (key : K)
    (h : Find hash s key = false) : Erase hash s key = s := by
  unfold Erase
  unfold Find at h
  by_cases h0 : s.buckets.length = 0
  · rw [dif_pos h0]
  · rw [dif_neg h0] at h
    rw [dif_neg h0]
    have hk := of_decide_eq_false h
    simp only [hk, if_false]

theorem Erase_present (hash : K → Nat) (s : UnorderedSet K) (key : K) {b : List K}
    (hb : s.buckets[GetIndex hash key s.buckets.length]? = some b) (hk : key ∈ b) :
    Erase hash s key =
      { buckets := s.buckets.set (GetIndex hash key s.buckets.length) (b.erase key),
        size := decr s.size } := by
  obtain ⟨hi, hget⟩ := List.getElem?_eq_some.mp hb
  have h0 : ¬ s.buckets.length = 0 := by omega
  unfold Erase
  rw [dif_neg h0]
  simp only [List.get_eq_getElem, hget, hk, if_true]

theorem Placed_erase {hash : K → Nat} {v : List (List K)} (hp : Placed hash v) {i : Nat}
    {b : List K} (hb : v[i]? = some b) (key : K) : Placed hash (v.set i (b.erase key)) := by
  intro j c hc k hk
  rw [List.length_set]
  rw [List.getElem?_set] at hc
  split at hc
  · rename_i hi
    split at hc
    · cases hc
      rw [← hi]
      exact hp i b hb k (List.mem_of_mem_erase hk)
    · cases hc
  · exact hp j c hc k hk

theorem Erase_spec {hash : K → Nat} {s : UnorderedSet K} (hI : Inv hash s) (key : K) :
    Inv hash (Erase hash s key) ∧
      (Erase hash s key).buckets.length = s.buckets.length ∧
      (Find hash s key = false → Erase hash s key = s) ∧
      (Find hash s key = true → (Erase hash s key).size + 1 = s.size ∧
        s.buckets.flatten.Perm (key :: (Erase hash s key).buckets.flatten)) := by
  cases h : Find hash s key
  · rw [Erase_absent hash s key h]
    exact ⟨hI, rfl, fun _ => rfl, fun hc => by cases hc⟩
  · obtain ⟨b, hb, hk⟩ := (Find_iff hash s key).mp h
    rw [Erase_present hash s key hb hk]
    have hperm := flatten_erase_perm hb hk
    have hlen : s.size = (s.buckets.set (GetIndex hash key s.buckets.length)
        (b.erase key)).flatten.length + 1 := by
      rw [hI.count, ← length_flatten_eq, hperm.length_eq, List.length_cons]
    have hdec : decr s.size + 1 = s.size := by
      unfold decr
      rw [if_neg (by omega)]
      omega
    have hcnt : decr s.size = ((s.buckets.set (GetIndex hash key s.buckets.length)
        (b.erase key)).map List.length).sum := by
      rw [← length_flatten_eq]
      omega
    have hcap : decr s.size ≤ (s.buckets.set (GetIndex hash key s.buckets.length)
        (b.erase key)).length := by
      rw [List.length_set]
      have := hI.cap
      omega
    exact ⟨⟨hcnt, Placed_erase hI.placed hb key,
        (List.nodup_cons.mp (hperm.nodup_iff.mp hI.nodup)).2, hcap⟩,
      List.length_set _ _ _, fun hc => Bool.noConfusion hc, fun _ => ⟨hdec, hperm⟩⟩

/-! ## Constructors, histories -/

theorem Inv_new (hash : K → Nat) : Inv hash (new : UnorderedSet K) :=
  ⟨rfl, fun i b hb => (by cases hb), List.nodup_nil, Nat.le_refl _⟩

theorem Inv_Clear (hash : K → Nat) (s : UnorderedSet K) : Inv hash (Clear s) :=
  ⟨rfl, fun i b hb => (by cases hb), List.nodup_nil, Nat.le_refl _⟩

theorem Inv_blank (hash : K → Nat) (n : Nat) :
    Inv hash ({ buckets := List.replicate n [], size := 0 } : UnorderedSet K) := by
  refine ⟨?_, Placed_replicate hash n, ?_, Nat.zero_le _⟩
  · show 0 = ((List.replicate n ([] : List K)).map List.length).sum
    rw [← length_flatten_eq, flatten_replicate_nil]
    rfl
  · show (List.replicate n ([] : List K)).flatten.Nodup
    rw [flatten_replicate_nil]
    exact List.nodup_nil

theorem Inv_newSized (hash : K → Nat) (count : Nat) :
    Inv hash (newSized count : UnorderedSet K) := Inv_blank hash _

theorem Reserve_spec {hash : K → Nat} {s : UnorderedSet K} (hI : Inv hash s) (n : Nat) :
    ∃ t, Reserve hash s n = some t ∧ Inv hash t := by
  unfold Reserve
  split
  · obtain ⟨t, ht, hIt, _⟩ := Rehash_spec hI n
    exact ⟨t, ht, hIt⟩
  · exact ⟨s, rfl, hI⟩

theorem apply_spec {hash : K → Nat} {s : UnorderedSet K} (hI : Inv hash s) (op : Op K) :
    ∃ t, op.apply hash s = some t ∧ Inv hash t := by
  cases op with
  | insert key => exact Insert_spec hI key
  | erase key => exact ⟨_, rfl, (Erase_spec hI key).1⟩
  | rehash n =>
    obtain ⟨t, ht, hIt, _⟩ := Rehash_spec hI n
    exact ⟨t, ht, hIt⟩
  | reserve n => exact Reserve_spec hI n
  | clear => exact ⟨_, rfl, Inv_Clear hash s⟩

theorem foldlM_inv {α σ : Type} (P : σ → Prop) (f : σ → α → Option σ)
    (hf : ∀ s a, P s → ∃ t, f s a = some t ∧ P t) (xs : List α) :
    ∀ s, P s → ∃ t, xs.foldlM f s = some t ∧ P t := by
  induction xs with
  | nil => intro s hs; exact ⟨s, rfl, hs⟩
  | cons a xs ih =>
    intro s hs
    obtain ⟨t, ht, hPt⟩ := hf s a hs
    obtain ⟨u, hu, hPu⟩ := ih t hPt
    refine ⟨u, ?_, hPu⟩
    rw [List.foldlM_cons, ht]
    exact hu

theorem run_spec {hash : K → Nat} {s : UnorderedSet K} (hI : Inv hash s) (ops : List (Op K)) :
    ∃ t, run hash s ops = some t ∧ Inv hash t :=
  foldlM_inv (Inv hash) (Op.apply hash) (fun _ op h => apply_spec h op) ops s hI

theorem newRange_spec (hash : K → Nat) (xs : List K) :
    ∃ t, newRange hash xs = some t ∧ Inv hash t :=
  foldlM_inv (Inv hash) (Insert hash) (fun _ key h => Insert_spec h key) xs _
    (Inv_blank hash _)

theorem build_spec (hash : K → Nat) (c : Ctor K) :
    ∃ t, c.build hash = some t ∧ Inv hash t := by
  cases c with
  | default => exact ⟨_, rfl, Inv_new hash⟩
  | sized count => exact ⟨_, rfl, Inv_newSized hash count⟩
  | range xs => exact newRange_spec hash xs

theorem history_spec (hash : K → Nat) (c : Ctor K) (ops : List (Op K)) :
    ∃ t, history hash c ops = some t ∧ Inv hash t := by
  obtain ⟨s, hs, hIs⟩ := build_spec hash c
  obtain ⟨t, ht, hIt⟩ := run_spec hIs ops
  refine ⟨t, ?_, hIt⟩
  unfold history
  rw [hs]
  exact ht

theorem history_inv {hash : K → Nat} {c : Ctor K} {ops : List (Op K)} {s : UnorderedSet K}
    (h : history hash c ops = some s) : Inv hash s := by
  obtain ⟨t, ht, hIt⟩ := history_spec hash c ops
  rw [h] at ht
  cases ht
  exact hIt

/-! ## Insert and Erase against the abstract set -/

theorem replay_step {hash : K → Nat} {s : UnorderedSet K} {A : Finset K} (hI : Inv hash s)
    (hA : ∀ k, k ∈ s.buckets.flatten ↔ k ∈ A) (u : Update K) :
    ∃ t, u.toOp.apply hash s = some t ∧ Inv hash t ∧
      ∀ k, k ∈ t.buckets.flatten ↔ k ∈ u.replay A := by
  cases u with
  | insert key =>
    show ∃ t, Insert hash s key = some t ∧ _
    cases h : Find hash s key
    · obtain ⟨t, ht, hIt, _, hperm, _⟩ := Insert_absent hI h
      refine ⟨t, ht, hIt, fun k => ?_⟩
      rw [hperm.mem_iff, List.mem_cons, hA]
      simp only [Update.replay, Finset.mem_insert]
    · refine ⟨s, Insert_present hash s key h, hI, fun k => ?_⟩
      have hk : key ∈ A := (hA key).mp ((Find_iff_mem hI.placed key).mp h)
      simp only [Update.replay, Finset.mem_insert]
      rw [hA]
      constructor
      · exact fun hm => Or.inr hm
      · rintro (rfl | hm)
        · exact hk
        · exact hm
  | erase key =>
    refine ⟨Erase hash s key, rfl, (Erase_spec hI key).1, fun k => ?_⟩
    obtain ⟨_, _, habs, hpres⟩ := Erase_spec hI key
    simp only [Update.replay, Finset.mem_erase]
    cases h : Find hash s key
    · rw [habs h, hA]
      have hk : key ∉ A := by
        intro hm
        have := (Find_iff_mem hI.placed key).mpr ((hA key).mpr hm)
        rw [h] at this
        cases this
      constructor
      · intro hm
        exact ⟨fun he => hk (he ▸ hm), hm⟩
      · exact fun hm => hm.2
    · obtain ⟨_, hperm⟩ := hpres h
      have hnd := hperm.nodup_iff.mp hI.nodup
      have hk : key ∉ (Erase hash s key).buckets.flatten := (List.nodup_cons.mp hnd).1
      rw [← hA, hperm.mem_iff, List.mem_cons]
      constructor
      · intro hm
        exact ⟨fun he => hk (he ▸ hm), Or.inr hm⟩
      · rintro ⟨hne, he | hm⟩
        · exact absurd he hne
        · exact hm

theorem replay_run (hash : K → Nat) (us : List (Update K)) :
    ∀ (s : UnorderedSet K) (A : Finset K), Inv hash s →
      (∀ k, k ∈ s.buckets.flatten ↔ k ∈ A) →
      ∃ t, run hash s (us.map Update.toOp) = some t ∧ Inv hash t ∧
        ∀ k, k ∈ t.buckets.flatten ↔ k ∈ us.foldl Update.replay A := by
  induction us with
  | nil => intro s A hI hA; exact ⟨s, rfl, hI, hA⟩
  | cons u us ih =>
    intro s A hI hA
    obtain ⟨t, ht, hIt, hAt⟩ := replay_step hI hA u
    obtain ⟨r, hr, hIr, hAr⟩ := ih t (u.replay A) hIt hAt
    refine ⟨r, ?_, hIr, hAr⟩
    unfold run at hr ⊢
    rw [List.map_cons, List.foldlM_cons, ht]
    exact hr

theorem size_eq_card {hash : K → Nat} {s : UnorderedSet K} {A : Finset K} (hI : Inv hash s)
    (hA : ∀ k, k ∈ s.buckets.flatten ↔ k ∈ A) : s.size = A.card := by
  have hfin : s.buckets.flatten.toFinset = A := by
    ext k
    rw [List.mem_toFinset, hA]
  rw [← hfin, List.toFinset_card_of_nodup hI.nodup, length_flatten_eq, hI.count]

/-! ## The claims -/

/-- C1: for every hash function and every sequence of Insert/Erase calls on a
default-constructed table, the calls all return, `Size()` is the cardinality of the set
obtained by replaying the calls on the empty mathematical set, and `Find(k)` is true exactly
for the members of that set. As the sequence is arbitrary, this holds after each call. -/
theorem C1_insert_erase_refine_abstract_set (hash : K → Nat) (us : List (Update K)) :
    ∃ s, run hash new (us.map Update.toOp) = some s ∧
      Size s = (abstractSet us).card ∧
      ∀ k, Find hash s k = true ↔ k ∈ abstractSet us := by
  obtain ⟨s, hs, hI, hA⟩ :=
    replay_run hash us new ∅ (Inv_new hash) (fun k => by simp [new])
  refine ⟨s, hs, size_eq_card hI hA, fun k => ?_⟩
  rw [Find_iff_mem hI.placed]
  exact hA k

/-- C2 (invariant I2): every constructor call followed by any sequence of Insert, Erase,
Rehash, Reserve and Clear calls returns a table in which every key stored in the bucket at
index `i` satisfies `i = hash(key) mod BucketCount()`. -/
theorem C2_keys_in_bucket_of_hash (hash : K → Nat) (c : Ctor K) (ops : List (Op K)) :
    ∃ s, history hash c ops = some s ∧
      ∀ (i : Nat) (b : List K), s.buckets[i]? = some b →
        ∀ k ∈ b, i = hash k % BucketCount s := by
  obtain ⟨s, hs, hI⟩ := history_spec hash c ops
  exact ⟨s, hs, fun i b hb k hk => (hI.placed i b hb k hk).symm⟩

/-- C3 (invariant I3): every constructor call followed by any sequence of Insert, Erase,
Rehash, Reserve and Clear calls returns a table in which no key occurs more than once in the
concatenation of all buckets, hence neither twice in one bucket nor in two buckets. -/
theorem C3_no_key_twice (hash : K → Nat) (c : Ctor K) (ops : List (Op K)) :
    ∃ s, history hash c ops = some s ∧
      (∀ k, s.buckets.flatten.count k ≤ 1) ∧
      (∀ b ∈ s.buckets, b.Nodup) ∧
      (∀ (i j : Nat) (bi bj : List K), s.buckets[i]? = some bi → s.buckets[j]? = some bj →
        i ≠ j → ∀ k ∈ bi, k ∉ bj) := by
  obtain ⟨s, hs, hI⟩ := history_spec hash c ops
  refine ⟨s, hs, fun k => List.nodup_iff_count_le_one.mp hI.nodup k,
    (List.nodup_flatten.mp hI.nodup).1, ?_⟩
  intro i j bi bj hi hj hij k hki hkj
  exact hij ((hI.placed i bi hi k hki).symm.trans (hI.placed j bj hj k hkj))

/-! ## Programs over several objects -/

theorem Inv_eta {hash : K → Nat} {s : UnorderedSet K} (hI : Inv hash s) :
    Inv hash { buckets := s.buckets, size := s.size } := hI

theorem Inv_moved_from (hash : K → Nat) :
    Inv hash ({ buckets := [], size := 0 } : UnorderedSet K) := Inv_new hash

theorem all_set {α : Type} {P : α → Prop} {w : List α} (hw : ∀ s ∈ w, P s) (i : Nat) {t : α}
    (ht : P t) : ∀ s ∈ w.set i t, P s := by
  intro s hs
  rcases List.mem_or_eq_of_mem_set hs with h | h
  · exact hw s h
  · rw [h]; exact ht

theorem all_snoc {α : Type} {P : α → Prop} {w : List α} (hw : ∀ s ∈ w, P s) {t : α}
    (ht : P t) : ∀ s ∈ w ++ [t], P s := by
  intro s hs
  rcases List.mem_append.mp hs with h | h
  · exact hw s h
  · rw [List.mem_singleton.mp h]; exact ht

theorem step_spec {hash : K → Nat} {w : List (UnorderedSet K)} (hw : ∀ s ∈ w, Inv hash s)
    (cmd : Cmd K) : ∃ w1, cmd.step hash w = some w1 ∧ ∀ s ∈ w1, Inv hash s := by
  cases cmd with
  | construct c =>
    obtain ⟨s, hs, hI⟩ := build_spec hash c
    refine ⟨w ++ [s], ?_, all_snoc hw hI⟩
    simp only [Cmd.step, hs, Option.map_some']
  | call obj op =>
    cases h : w[obj]? with
    | none => exact ⟨w, by simp only [Cmd.step, h], hw⟩
    | some s =>
      obtain ⟨t, ht, hI⟩ := apply_spec (hw s (List.getElem?_mem h)) op
      exact ⟨w.set obj t, by simp only [Cmd.step, h, ht, Option.map_some'], all_set hw obj hI⟩
  | copyConstruct src =>
    cases h : w[src]? with
    | none => exact ⟨w, by simp only [Cmd.step, h], hw⟩
    | some s =>
      exact ⟨w ++ [copyCtor s], by simp only [Cmd.step, h],
        all_snoc hw (Inv_eta (hw s (List.getElem?_mem h)))⟩
  | moveConstruct src =>
    cases h : w[src]? with
    | none => exact ⟨w, by simp only [Cmd.step, h], hw⟩
    | some s =>
      exact ⟨w.set src (moveCtor s).2 ++ [(moveCtor s).1], by simp only [Cmd.step, h],
        all_snoc (all_set hw src (Inv_moved_from hash)) (Inv_eta (hw s (List.getElem?_mem h)))⟩
  | copyAssign dst src =>
    by_cases hds : dst = src
    · exact ⟨w, by simp only [Cmd.step, hds, if_true], hw⟩
    · cases hd : w[dst]? with
      | none => exact ⟨w, by simp only [Cmd.step, hds, if_false, hd], hw⟩
      | some d =>
        cases h : w[src]? with
        | none => exact ⟨w, by simp only [Cmd.step, hds, if_false, hd, h], hw⟩
        | some s =>
          exact ⟨w.set dst (UnorderedSet.copyAssign d s),
            by simp only [Cmd.step, hds, if_false, hd, h],
            all_set hw dst (Inv_eta (hw s (List.getElem?_mem h)))⟩
  | moveAssign dst src =>
    by_cases hds : dst = src
    · exact ⟨w, by simp only [Cmd.step, hds, if_true], hw⟩
    · cases hd : w[dst]? with
      | none => exact ⟨w, by simp only [Cmd.step, hds, if_false, hd], hw⟩
      | some d =>
        cases h : w[src]? with
        | none => exact ⟨w, by simp only [Cmd.step, hds, if_false, hd, h], hw⟩
        | some s =>
          exact ⟨(w.set dst (UnorderedSet.moveAssign d s).1).set src
              (UnorderedSet.moveAssign d s).2,
            by simp only [Cmd.step, hds, if_false, hd, h],
            all_set (all_set hw dst (Inv_eta (hw s (List.getElem?_mem h)))) src
              (Inv_moved_from hash)⟩

theorem program_spec (hash : K → Nat) (cmds : List (Cmd K)) :
    ∃ w, program hash cmds = some w ∧ ∀ s ∈ w, Inv hash s :=
  foldlM_inv (fun w => ∀ s ∈ w, Inv hash s) (Cmd.step hash) (fun _ cmd h => step_spec h cmd)
    cmds [] (fun s hs => by cases hs)

theorem BucketSize_sum (s : UnorderedSet K) :
    ((List.range (BucketCount s)).map (BucketSize s)).sum = (s.buckets.map List.length).sum := by
  congr 1
  apply List.ext_getElem
  · simp [BucketCount]
  · intro i h1 h2
    have hi : i < s.buckets.length := by simpa using h2
    simp only [List.getElem_map, List.getElem_range, BucketSize]
    rw [dif_neg (by omega)]
    rfl

/-- C4 (invariant I1): in every object of every client program built from the three
constructors, Insert, Erase, Rehash, Reserve, Clear, copy and move construction and copy and
move assignment (a moved-from bucket array being empty), no call hits an out-of-range
subscript and `Size()` is the sum of `BucketSize(i)` over `0 <= i < BucketCount()`, which
is the sum of the lengths of all buckets. -/
theorem C4_size_is_sum_of_bucket_sizes (hash : K → Nat) (cmds : List (Cmd K)) :
    ∃ w, program hash cmds = some w ∧
      ∀ s ∈ w, Size s = ((List.range (BucketCount s)).map (BucketSize s)).sum ∧
        Size s = (s.buckets.map List.length).sum := by
  obtain ⟨w, hw, hI⟩ := program_spec hash cmds
  refine ⟨w, hw, fun s hs => ⟨?_, (hI s hs).count⟩⟩
  rw [BucketSize_sum]
  exact (hI s hs).count

/-- C5: on a table reached by a history, `Rehash(n)` with `n >= Size()` and
`n != BucketCount()` returns and leaves `BucketCount() = n`, the same `Size()`, the same
answer of `Find` for every key, and every stored key `k` in the bucket of index
`Bucket(k) = hash(k) mod n`. -/
theorem C5_rehash_redistributes (hash : K → Nat) (c : Ctor K) (ops : List (Op K))
    (s : UnorderedSet K) (n : Nat) (hs : history hash c ops = some s) (hn : n ≥ Size s)
    (hne : n ≠ BucketCount s) :
    ∃ t, Rehash hash s n = some t ∧ BucketCount t = n ∧ Size t = Size s ∧
      (∀ k, Find hash t k = Find hash s k) ∧
      ∀ k ∈ t.buckets.flatten, Bucket hash t k = hash k % n ∧
        ∃ b, t.buckets[Bucket hash t k]? = some b ∧ k ∈ b := by
  have hI := history_inv hs
  have hno : ¬ (n < s.size ∨ n = s.buckets.length) := by
    unfold Size at hn
    unfold BucketCount at hne
    omega
  obtain ⟨t, ht, hIt, hsz, hperm, _, hlen⟩ := Rehash_spec hI n
  have hl := hlen hno
  refine ⟨t, ht, hl, hsz, fun k => ?_, fun k hk => ?_⟩
  · rw [Bool.eq_iff_iff, Find_iff_mem hIt.placed, Find_iff_mem hI.placed]
    exact hperm.mem_iff
  · obtain ⟨i, b, hb, hkb⟩ := mem_flatten_iff.mp hk
    have hi : i < t.buckets.length := (List.getElem?_eq_some.mp hb).1
    have hpl := hIt.placed i b hb k hkb
    have hB : Bucket hash t k = hash k % n := by
      unfold Bucket
      rw [GetIndex_pos hash k (by omega), hl]
    refine ⟨hB, b, ?_, hkb⟩
    rw [hB, ← hl, hpl]
    exact hb

theorem C5_rehash_redistributes_witness :
    ∃ t, Rehash (fun k : Nat => k) { buckets := [[], [1, 5], [2], []], size := 3 } 7 = some t ∧
      BucketCount t = 7 ∧
      Size t = Size ({ buckets := [[], [1, 5], [2], []], size := 3 } : UnorderedSet Nat) ∧
      (∀ k, Find (fun k : Nat => k) t k =
        Find (fun k : Nat => k) { buckets := [[], [1, 5], [2], []], size := 3 } k) ∧
      ∀ k ∈ t.buckets.flatten, Bucket (fun k : Nat => k) t k = (fun k : Nat => k) k % 7 ∧
        ∃ b, t.buckets[Bucket (fun k : Nat => k) t k]? = some b ∧ k ∈ b :=
  C5_rehash_redistributes (fun k : Nat => k) Ctor.default
    [Op.insert 1, Op.insert 2, Op.insert 5] { buckets := [[], [1, 5], [2], []], size := 3 } 7
    (by decide) (by decide) (by decide)

/-- C6: on every table, `Rehash(n)` with `n < Size()` or `n = BucketCount()` returns the
table with its bucket array and its counter exactly as they were. -/
theorem C6_rehash_refused_is_noop (hash : K → Nat) (s : UnorderedSet K) (n : Nat)
    (h : n < Size s ∨ n = BucketCount s) : Rehash hash s n = some s :=
  Rehash_skip hash s h

theorem C6_rehash_refused_is_noop_witness :
    (1 < Size ({ buckets := [[2], [1]], size := 2 } : UnorderedSet Nat) ∨
        1 = BucketCount ({ buckets := [[2], [1]], size := 2 } : UnorderedSet Nat)) ∧
      Rehash (fun k : Nat => k) { buckets := [[2], [1]], size := 2 } 1 =
        some { buckets := [[2], [1]], size := 2 } :=
  ⟨by decide, C6_rehash_refused_is_noop (fun k : Nat => k) { buckets := [[2], [1]], size := 2 } 1
    (by decide)⟩

/-- C7: on every table, `Insert(k)` of a key with `Find(k)` true returns the table unchanged
(bucket array and counter), for both overloads; so `Size()`, `BucketCount()`, every `Find`
and the position of `k` in its bucket are as before, also when `Size() = BucketCount()`. -/
theorem C7_insert_present_is_noop (hash : K → Nat) (s : UnorderedSet K) (k : K)
    (h : Find hash s k = true) :
    Insert hash s k = some s ∧ InsertRvalue hash s k = some s := by
  constructor
  · exact Insert_present hash s k h
  · unfold InsertRvalue
    rw [if_pos h]

theorem C7_insert_present_is_noop_witness :
    Find (fun k : Nat => k) { buckets := [[1]], size := 1 } 1 = true ∧
      Insert (fun k : Nat => k) { buckets := [[1]], size := 1 } 1 =
        some { buckets := [[1]], size := 1 } ∧
      InsertRvalue (fun k : Nat => k) { buckets := [[1]], size := 1 } 1 =
        some { buckets := [[1]], size := 1 } :=
  ⟨by decide, C7_insert_present_is_noop (fun k : Nat => k) { buckets := [[1]], size := 1 } 1
    (by decide)⟩

/-! ## Growth -/

theorem Insert_count {hash : K → Nat} {s : UnorderedSet K} (hI : Inv hash s) (key : K) :
    ∃ t, Insert hash s key = some t ∧ Inv hash t ∧ 0 < t.buckets.length ∧
      (growthTriggered hash s key = false → t.buckets.length = s.buckets.length) ∧
      (growthTriggered hash s key = true →
        t.buckets.length = if s.buckets.length = 0 then 1 else s.buckets.length * 2) := by
  unfold growthTriggered
  cases h : Find hash s key
  · obtain ⟨t, ht, hIt, hsz, _, hsame, hgrow⟩ := Insert_absent hI h
    have hcap := hIt.cap
    refine ⟨t, ht, hIt, by omega, fun hg => ?_, fun hg => ?_⟩
    · simp only [Bool.not_false, Bool.true_and, decide_eq_false_iff_not, not_le] at hg
      exact hsame (by omega)
    · simp only [Bool.not_false, Bool.true_and, decide_eq_true_eq] at hg
      exact hgrow hg
  · obtain ⟨b, hb, _⟩ := (Find_iff hash s key).mp h
    have hi : GetIndex hash key s.buckets.length < s.buckets.length :=
      (List.getElem?_eq_some.mp hb).1
    refine ⟨s, Insert_present hash s key h, hI, by omega, fun _ => rfl, fun hg => ?_⟩
    simp at hg

/-- The bucket count is 0 or a power of two. -/
theorem pow_step {a b : Nat} (ha : a = 0 ∨ ∃ e, a = 2 ^ e)
    (hb : b = a ∨ b = if a = 0 then 1 else a * 2) : b = 0 ∨ ∃ e, b = 2 ^ e := by
  rcases hb with hb | hb
  · rw [hb]; exact ha
  · rcases ha with ha | ⟨e, he⟩
    · rw [hb, if_pos ha]; exact Or.inr ⟨0, rfl⟩
    · have hne : a ≠ 0 := by rw [he]; exact Nat.pos_iff_ne_zero.mp (Nat.two_pow_pos e)
      rw [hb, if_neg hne, he]
      exact Or.inr ⟨e + 1, by rw [Nat.pow_succ]⟩

theorem Insert_pow {hash : K → Nat} {s : UnorderedSet K} (hI : Inv hash s)
    (hp : s.buckets.length = 0 ∨ ∃ e, s.buckets.length = 2 ^ e) (key : K) :
    ∃ t, Insert hash s key = some t ∧ Inv hash t ∧ 0 < t.buckets.length ∧
      ∃ e, t.buckets.length = 2 ^ e := by
  obtain ⟨t, ht, hIt, hpos, hsame, hgrow⟩ := Insert_count hI key
  have hstep : t.buckets.length = s.buckets.length ∨
      t.buckets.length = if s.buckets.length = 0 then 1 else s.buckets.length * 2 := by
    cases hg : growthTriggered hash s key
    · exact Or.inl (hsame hg)
    · exact Or.inr (hgrow hg)
  rcases pow_step hp hstep with h0 | he
  · omega
  · exact ⟨t, ht, hIt, hpos, he⟩

theorem run_insert (hash : K → Nat) (keys : List K) :
    ∀ s : UnorderedSet K, run hash s (keys.map Op.insert) = keys.foldlM (Insert hash) s := by
  induction keys with
  | nil => intro s; rfl
  | cons k ks ih =>
    intro s
    unfold run at ih ⊢
    rw [List.map_cons, List.foldlM_cons, List.foldlM_cons]
    congr 1
    funext t
    exact ih t

/-- C8: from the default-constructed table, every sequence of single-key `Insert` calls
returns, and afterwards `Size() <= BucketCount()`. As the sequence is arbitrary, this holds
after each `Insert`. -/
theorem C8_size_le_bucket_count (hash : K → Nat) (keys : List K) :
    ∃ s, run hash new (keys.map Op.insert) = some s ∧ Size s ≤ BucketCount s := by
  obtain ⟨s, hs, hI⟩ := run_spec (Inv_new hash) (keys.map Op.insert)
  exact ⟨s, hs, hI.cap⟩

/-- C9: from the default-constructed table, every sequence of `Insert` calls returns a table
whose `BucketCount()` is 0 when no call was made and a power of two otherwise; and one more
`Insert` leaves `BucketCount()` unchanged, takes it from 0 to 1, or doubles it. -/
theorem C9_bucket_count_power_of_two (hash : K → Nat) (keys : List K) :
    ∃ s, run hash new (keys.map Op.insert) = some s ∧
      (keys = [] → BucketCount s = 0) ∧
      (keys ≠ [] → ∃ e, BucketCount s = 2 ^ e) ∧
      ∀ key, ∃ t, Insert hash s key = some t ∧
        (BucketCount t = BucketCount s ∨ (BucketCount s = 0 ∧ BucketCount t = 1) ∨
          (BucketCount s ≠ 0 ∧ BucketCount t = 2 * BucketCount s)) := by
  have hstep : ∀ s : UnorderedSet K, Inv hash s → ∀ key, ∃ t, Insert hash s key = some t ∧
      (BucketCount t = BucketCount s ∨ (BucketCount s = 0 ∧ BucketCount t = 1) ∨
        (BucketCount s ≠ 0 ∧ BucketCount t = 2 * BucketCount s)) := by
    intro s hI key
    obtain ⟨t, ht, _, _, hsame, hgrow⟩ := Insert_count hI key
    refine ⟨t, ht, ?_⟩
    unfold BucketCount
    cases hg : growthTriggered hash s key
    · exact Or.inl (hsame hg)
    · have := hgrow hg
      by_cases h0 : s.buckets.length = 0
      · rw [if_pos h0] at this
        exact Or.inr (Or.inl ⟨h0, this⟩)
      · rw [if_neg h0] at this
        exact Or.inr (Or.inr ⟨h0, by omega⟩)
  cases keys with
  | nil =>
    exact ⟨new, rfl, fun _ => rfl, fun h => absurd rfl h, hstep new (Inv_new hash)⟩
  | cons k ks =>
    obtain ⟨t, ht, hIt, hpos, hpow⟩ := Insert_pow (Inv_new hash) (Or.inl rfl) k
    obtain ⟨r, hr, hIr, _, hpr⟩ :=
      foldlM_inv
        (fun s : UnorderedSet K => Inv hash s ∧ 0 < s.buckets.length ∧
          ∃ e, s.buckets.length = 2 ^ e)
        (Insert hash)
        (fun s key h => by
          obtain ⟨u, hu, hIu, hposu, hpowu⟩ := Insert_pow h.1 (Or.inr h.2.2) key
          exact ⟨u, hu, hIu, hposu, hpowu⟩)
        ks t ⟨hIt, hpos, hpow⟩
    refine ⟨r, ?_, fun h => List.noConfusion h, fun _ => hpr, hstep r hIr⟩
    rw [run_insert, List.foldlM_cons, ht]
    exact hr

/-- C10, as stated, fails: the table reached by `Insert(1)` on the default table has one
bucket holding one key; `Insert(1)` on it returns at the `Find` check, so it triggers no
growth and changes nothing, yet before it `Size() = BucketCount() = 1`, which is not
`Size() < BucketCount()`. -/
theorem C10_counterexample :
    history (fun k : Nat => k) Ctor.default [Op.insert 1] = some { buckets := [[1]], size := 1 } ∧
      Find (fun k : Nat => k) { buckets := [[1]], size := 1 } 1 = true ∧
      Insert (fun k : Nat => k) { buckets := [[1]], size := 1 } 1 =
        some { buckets := [[1]], size := 1 } ∧
      growthTriggered (fun k : Nat => k) { buckets := [[1]], size := 1 } 1 = false ∧
      Size ({ buckets := [[1]], size := 1 } : UnorderedSet Nat) = 1 ∧
      BucketCount ({ buckets := [[1]], size := 1 } : UnorderedSet Nat) = 1 ∧
      ¬ (Size ({ buckets := [[1]], size := 1 } : UnorderedSet Nat) <
          BucketCount ({ buckets := [[1]], size := 1 } : UnorderedSet Nat)) := by
  refine ⟨by decide, by decide, by decide, by decide, by decide, by decide, by decide⟩

/-- C10, amended: on a table reached by a history, `Insert(key)` returns; it changes
`BucketCount()` exactly when it triggers growth; if it triggers growth then afterwards
`Size() <= BucketCount()`; and if the key is absent and the `Insert` triggers no growth
then before it `Size() < BucketCount()`. The bounds are on the two counters, not on the
`float` that `LoadFactor()` returns. -/
theorem C10_size_bound_around_insert (hash : K → Nat) (c : Ctor K) (ops : List (Op K))
    (s : UnorderedSet K) (key : K) (hs : history hash c ops = some s) :
    ∃ t, Insert hash s key = some t ∧
      (growthTriggered hash s key = true ↔ BucketCount t ≠ BucketCount s) ∧
      (growthTriggered hash s key = true → Size t ≤ BucketCount t) ∧
      (Find hash s key = false → growthTriggered hash s key = false →
        Size s < BucketCount s) := by
  have hI := history_inv hs
  obtain ⟨t, ht, hIt, hpos, hsame, hgrow⟩ := Insert_count hI key
  refine ⟨t, ht, ?_, fun _ => hIt.cap, fun hf hg => ?_⟩
  · unfold BucketCount
    cases hg : growthTriggered hash s key
    · have := hsame hg
      simp [this]
    · have := hgrow hg
      simp only [true_iff]
      split at this <;> omega
  · show s.size < s.buckets.length
    unfold growthTriggered at hg
    rw [hf] at hg
    simp only [Bool.not_false, Bool.true_and, decide_eq_false_iff_not, not_le] at hg
    omega

theorem C10_size_bound_around_insert_witness :
    (Find (fun k : Nat => k) { buckets := [[], [1, 5], [2], []], size := 3 } 7 = false ∧
      growthTriggered (fun k : Nat => k) { buckets := [[], [1, 5], [2], []], size := 3 } 7 =
        false ∧
      ∃ t, Insert (fun k : Nat => k) { buckets := [[], [1, 5], [2], []], size := 3 } 7 = some t ∧
        (growthTriggered (fun k : Nat => k) { buckets := [[], [1, 5], [2], []], size := 3 } 7 =
            true ↔
          BucketCount t ≠
            BucketCount ({ buckets := [[], [1, 5], [2], []], size := 3 } : UnorderedSet Nat)) ∧
        (growthTriggered (fun k : Nat => k) { buckets := [[], [1, 5], [2], []], size := 3 } 7 =
            true → Size t ≤ BucketCount t) ∧
        (Find (fun k : Nat => k) { buckets := [[], [1, 5], [2], []], size := 3 } 7 = false →
          growthTriggered (fun k : Nat => k) { buckets := [[], [1, 5], [2], []], size := 3 } 7 =
            false →
          Size ({ buckets := [[], [1, 5], [2], []], size := 3 } : UnorderedSet Nat) <
            BucketCount ({ buckets := [[], [1, 5], [2], []], size := 3 } : UnorderedSet Nat))) ∧
    (growthTriggered (fun k : Nat => k) { buckets := [[2], [1]], size := 2 } 5 = true ∧
      ∃ t, Insert (fun k : Nat => k) { buckets := [[2], [1]], size := 2 } 5 = some t ∧
        (growthTriggered (fun k : Nat => k) { buckets := [[2], [1]], size := 2 } 5 = true ↔
          BucketCount t ≠
            BucketCount ({ buckets := [[2], [1]], size := 2 } : UnorderedSet Nat)) ∧
        (growthTriggered (fun k : Nat => k) { buckets := [[2], [1]], size := 2 } 5 = true →
          Size t ≤ BucketCount t) ∧
        (Find (fun k : Nat => k) { buckets := [[2], [1]], size := 2 } 5 = false →
          growthTriggered (fun k : Nat => k) { buckets := [[2], [1]], size := 2 } 5 = false →
          Size ({ buckets := [[2], [1]], size := 2 } : UnorderedSet Nat) <
            BucketCount ({ buckets := [[2], [1]], size := 2 } : UnorderedSet Nat))) :=
  ⟨⟨by decide, by decide,
      C10_size_bound_around_insert (fun k : Nat => k) Ctor.default
        [Op.insert 1, Op.insert 2, Op.insert 5]
        { buckets := [[], [1, 5], [2], []], size := 3 } 7 (by decide)⟩,
    ⟨by decide,
      C10_size_bound_around_insert (fun k : Nat => k) Ctor.default [Op.insert 1, Op.insert 2]
        { buckets := [[2], [1]], size := 2 } 5 (by decide)⟩⟩

/-! ## Zero buckets -/

/-- C11, as stated, fails: `Insert(1)` then `Clear()` on a default-constructed table leaves
`BucketCount() = 0`, although mutating calls were applied to the table. -/
theorem C11_counterexample :
    history (fun k : Nat => k) Ctor.default [Op.insert 1, Op.clear] =
        some { buckets := [], size := 0 } ∧
      BucketCount ({ buckets := [], size := 0 } : UnorderedSet Nat) = 0 ∧
      ([Op.insert 1, Op.clear] : List (Op Nat)) ≠ [] := by
  refine ⟨by decide, by decide, by decide⟩

/-- C11, amended: every history returns a table for which `BucketCount() = 0` only if the
table is in the state of a default-constructed table (no bucket, `Size() = 0`), and which
has `BucketCount() >= 1` whenever it stores at least one element. -/
theorem C11_zero_buckets_only_when_empty (hash : K → Nat) (c : Ctor K) (ops : List (Op K)) :
    ∃ s, history hash c ops = some s ∧
      (BucketCount s = 0 → s = new) ∧
      (1 ≤ Size s → 1 ≤ BucketCount s) ∧
      (s.buckets.flatten ≠ [] → 1 ≤ BucketCount s) := by
  obtain ⟨s, hs, hI⟩ := history_spec hash c ops
  have hcap := hI.cap
  refine ⟨s, hs, fun h0 => ?_, fun h1 => ?_, fun hne => ?_⟩
  · unfold BucketCount at h0
    have hb : s.buckets = [] := List.length_eq_zero.mp h0
    have hz : s.size = 0 := by omega
    cases s
    simp only [new] at hb hz ⊢
    rw [hb, hz]
  · unfold Size at h1
    unfold BucketCount
    omega
  · unfold BucketCount
    rcases Nat.eq_zero_or_pos s.buckets.length with h0 | h0
    · rw [List.length_eq_zero.mp h0] at hne
      exact absurd rfl hne
    · exact h0

/-! ## Range construction -/

theorem insertAll_room {hash : K → Nat} (xs : List K) :
    ∀ s : UnorderedSet K, Inv hash s → s.size + xs.length ≤ s.buckets.length →
      ∃ t, xs.foldlM (Insert hash) s = some t ∧ Inv hash t ∧
        t.buckets.length = s.buckets.length ∧
        ∀ k, k ∈ t.buckets.flatten ↔ k ∈ s.buckets.flatten ∨ k ∈ xs := by
  induction xs with
  | nil =>
    intro s hI _
    exact ⟨s, rfl, hI, rfl, fun k => by simp⟩
  | cons x xs ih =>
    intro s hI hroom
    rw [List.length_cons] at hroom
    cases h : Find hash s x
    · obtain ⟨t1, ht1, hI1, hsz, hperm, hsame, _⟩ := Insert_absent hI h
      have hlen : t1.buckets.length = s.buckets.length := hsame (by omega)
      obtain ⟨t, ht, hIt, hl, hmem⟩ := ih t1 hI1 (by omega)
      refine ⟨t, ?_, hIt, hl.trans hlen, fun k => ?_⟩
      · rw [List.foldlM_cons, ht1]
        exact ht
      · rw [hmem, hperm.mem_iff, List.mem_cons, List.mem_cons]
        constructor
        · rintro ((h1 | h1) | h1)
          · exact Or.inr (Or.inl h1)
          · exact Or.inl h1
          · exact Or.inr (Or.inr h1)
        · rintro (h1 | h1 | h1)
          · exact Or.inl (Or.inr h1)
          · exact Or.inl (Or.inl h1)
          · exact Or.inr h1
    · obtain ⟨t, ht, hIt, hl, hmem⟩ := ih s hI (by omega)
      have hx : x ∈ s.buckets.flatten := (Find_iff_mem hI.placed x).mp h
      refine ⟨t, ?_, hIt, hl, fun k => ?_⟩
      · rw [List.foldlM_cons, Insert_present hash s x h]
        exact ht
      · rw [hmem, List.mem_cons]
        constructor
        · rintro (h1 | h1)
          · exact Or.inl h1
          · exact Or.inr (Or.inr h1)
        · rintro (h1 | h1 | h1)
          · exact Or.inl h1
          · exact Or.inl (h1 ▸ hx)
          · exact Or.inr h1

theorem blank_length (n : Nat) :
    (List.replicate (if n = 0 then 1 else n) ([] : List K)).length = max 1 n := by
  rw [List.length_replicate]
  split <;> omega

/-- C12: for every hash function and every finite sequence `xs`, the range constructor
returns a table with `BucketCount() = max(1, length of xs)`, `Size()` the number of distinct
keys of `xs` and `Find(k)` true exactly for the keys of `xs`; and after the `Insert` of
every prefix of `xs` the bucket count is still `max(1, length of xs)`, so no growth fires
during construction. -/
theorem C12_range_constructor (hash : K → Nat) (xs : List K) :
    ∃ s, newRange hash xs = some s ∧
      BucketCount s = max 1 xs.length ∧
      Size s = xs.dedup.length ∧
      (∀ k, Find hash s k = true ↔ k ∈ xs) ∧
      ∀ i, ∃ t, (xs.take i).foldlM (Insert hash)
          { buckets := List.replicate (if xs.length = 0 then 1 else xs.length) [], size := 0 }
            = some t ∧ BucketCount t = max 1 xs.length := by
  have hblank := Inv_blank hash (K := K) (if xs.length = 0 then 1 else xs.length)
  have hlen := blank_length (K := K) xs.length
  obtain ⟨s, hs, hI, hl, hmem⟩ := insertAll_room xs _ hblank
    (by show 0 + xs.length ≤ _; rw [hlen]; omega)
  have hmem2 : ∀ k, k ∈ s.buckets.flatten ↔ k ∈ xs.toFinset := by
    intro k
    rw [hmem, List.mem_toFinset]
    show k ∈ (List.replicate _ ([] : List K)).flatten ∨ k ∈ xs ↔ k ∈ xs
    rw [flatten_replicate_nil]
    simp
  refine ⟨s, hs, ?_, ?_, fun k => ?_, fun i => ?_⟩
  · unfold BucketCount
    rw [hl]
    exact hlen
  · unfold Size
    rw [size_eq_card hI hmem2, List.card_toFinset]
  · rw [Find_iff_mem hI.placed, hmem2, List.mem_toFinset]
  · obtain ⟨t, ht, _, htl, _⟩ := insertAll_room (xs.take i) _ hblank
      (by
        show 0 + (xs.take i).length ≤ _
        rw [hlen, List.length_take]
        omega)
    refine ⟨t, ht, ?_⟩
    unfold BucketCount
    rw [htl]
    exact hlen

/-- The range `{"a","b","a","c"}` with the string length as hash: four buckets, three keys. -/
theorem newRange_strings :
    newRange String.length ["a", "b", "a", "c"] =
      some { buckets := [[], ["a", "b", "c"], [], []], size := 3 } := by
  decide

/-! ## The scenario of two keys -/

theorem Insert_new (hash : K → Nat) (k : K) :
    Insert hash new k = some { buckets := [[k]], size := 1 } := by
  simp [Insert, Find, new, grow, Rehash, pushKey, GetIndex, Nat.mod_one]

theorem Find_single (hash : K → Nat) (k : K) :
    Find hash { buckets := [[k]], size := 1 } k = true := by
  simp [Find, GetIndex, Nat.mod_one]

/-- C13: for every hash function and distinct keys `a`, `b`: the default table has
`BucketCount() = 0` and `Size() = 0`; `Insert(a)` gives 1 and 1; `Insert(b)` gives 2 and 2;
`Erase(a)` gives `Size() = 1` with `BucketCount()` still 2, `Find(a)` false and `Find(b)`
true; `Clear()` gives 0 and 0. -/
theorem C13_two_key_scenario (hash : K → Nat) (a b : K) (hab : a ≠ b) :
    BucketCount (new : UnorderedSet K) = 0 ∧ Size (new : UnorderedSet K) = 0 ∧
    ∃ s1 s2, Insert hash new a = some s1 ∧ BucketCount s1 = 1 ∧ Size s1 = 1 ∧
      Insert hash s1 b = some s2 ∧ BucketCount s2 = 2 ∧ Size s2 = 2 ∧
      Size (Erase hash s2 a) = 1 ∧ BucketCount (Erase hash s2 a) = 2 ∧
      Find hash (Erase hash s2 a) a = false ∧ Find hash (Erase hash s2 a) b = true ∧
      BucketCount (Clear (Erase hash s2 a)) = 0 ∧ Size (Clear (Erase hash s2 a)) = 0 := by
  refine ⟨rfl, rfl, ?_⟩
  have hI0 := Inv_new hash (K := K)
  have hfa : Find hash (new : UnorderedSet K) a = false := rfl
  obtain ⟨s1, hs1, hI1, hsz1, hperm1, _, hgrow1⟩ := Insert_absent hI0 hfa
  have hl1 : s1.buckets.length = 1 := hgrow1 (Nat.le_refl _)
  have hsize1 : s1.size = 1 := hsz1
  have hfb : Find hash s1 b = false := by
    cases hf : Find hash s1 b
    · rfl
    · have hm := hperm1.mem_iff.mp ((Find_iff_mem hI1.placed b).mp hf)
      rw [List.mem_cons] at hm
      rcases hm with hm | hm
      · exact absurd hm.symm hab
      · cases hm
  obtain ⟨s2, hs2, hI2, hsz2, hperm2, _, hgrow2⟩ := Insert_absent hI1 hfb
  have hl2 : s2.buckets.length = 2 := by
    rw [hgrow2 (by omega), hl1]
    rfl
  have hsize2 : s2.size = 2 := by rw [hsz2, hsize1]
  have hma : a ∈ s2.buckets.flatten := by
    rw [hperm2.mem_iff]
    exact List.mem_cons_of_mem _ (hperm1.mem_iff.mpr (List.mem_cons_self _ _))
  have hmb : b ∈ s2.buckets.flatten := by
    rw [hperm2.mem_iff]
    exact List.mem_cons_self _ _
  have hFa : Find hash s2 a = true := (Find_iff_mem hI2.placed a).mpr hma
  obtain ⟨hI3, hl3, _, hpres⟩ := Erase_spec hI2 a
  obtain ⟨hsz3, hperm3⟩ := hpres hFa
  have hnd := hperm3.nodup_iff.mp hI2.nodup
  refine ⟨s1, s2, hs1, hl1, hsize1, hs2, hl2, hsize2, ?_, ?_, ?_, ?_, rfl, rfl⟩
  · unfold Size
    omega
  · unfold BucketCount
    rw [hl3, hl2]
  · cases hf : Find hash (Erase hash s2 a) a
    · rfl
    · exact absurd ((Find_iff_mem hI3.placed a).mp hf) (List.nodup_cons.mp hnd).1
  · rw [Find_iff_mem hI3.placed]
    have hm := hperm3.mem_iff.mp hmb
    rw [List.mem_cons] at hm
    rcases hm with hm | hm
    · exact absurd hm.symm hab
    · exact hm

theorem C13_two_key_scenario_witness :
    (1 : Nat) ≠ 2 ∧
    BucketCount (new : UnorderedSet Nat) = 0 ∧ Size (new : UnorderedSet Nat) = 0 ∧
    ∃ s1 s2, Insert (fun k : Nat => k) new 1 = some s1 ∧ BucketCount s1 = 1 ∧ Size s1 = 1 ∧
      Insert (fun k : Nat => k) s1 2 = some s2 ∧ BucketCount s2 = 2 ∧ Size s2 = 2 ∧
      Size (Erase (fun k : Nat => k) s2 1) = 1 ∧
      BucketCount (Erase (fun k : Nat => k) s2 1) = 2 ∧
      Find (fun k : Nat => k) (Erase (fun k : Nat => k) s2 1) 1 = false ∧
      Find (fun k : Nat => k) (Erase (fun k : Nat => k) s2 1) 2 = true ∧
      BucketCount (Clear (Erase (fun k : Nat => k) s2 1)) = 0 ∧
      Size (Clear (Erase (fun k : Nat => k) s2 1)) = 0 :=
  ⟨by decide, C13_two_key_scenario (fun k : Nat => k) 1 2 (by decide)⟩

/-! ## Move -/

/-- C14: move construction and move assignment from a distinct table give the destination
the source's bucket array and size and leave the source with `Size() = 0`; a following
`Insert(k)` into the source returns a table with `Size() = 1`, `Find(k)` true,
`BucketCount() = 1` and `size` equal to the sum of its bucket lengths. -/
theorem C14_move_leaves_source_usable (hash : K → Nat) (self other : UnorderedSet K) (k : K) :
    (moveCtor other).1 = other ∧ (moveAssign self other).1 = other ∧
    Size (moveCtor other).2 = 0 ∧ Size (moveAssign self other).2 = 0 ∧
    (∃ t, Insert hash (moveCtor other).2 k = some t ∧ Size t = 1 ∧ Find hash t k = true ∧
      BucketCount t = 1 ∧ Size t = (t.buckets.map List.length).sum) ∧
    (∃ t, Insert hash (moveAssign self other).2 k = some t ∧ Size t = 1 ∧
      Find hash t k = true ∧ BucketCount t = 1 ∧ Size t = (t.buckets.map List.length).sum) := by
  refine ⟨rfl, rfl, rfl, rfl, ?_, ?_⟩
  · exact ⟨_, Insert_new hash k, rfl, Find_single hash k, rfl, rfl⟩
  · exact ⟨_, Insert_new hash k, rfl, Find_single hash k, rfl, rfl⟩

/-! ## Reserve -/

/-- C15: on a table reached by a history, `Reserve(n)` returns with
`BucketCount() = max(old BucketCount(), n)`; for `n <= old BucketCount()` the state is
unchanged; for `n > old BucketCount()` the guard `n < Size()` of `Rehash` is false, the
rehash executes, and `Size()`, the stored keys and every `Find` are unchanged. -/
theorem C15_reserve_never_shrinks (hash : K → Nat) (c : Ctor K) (ops : List (Op K))
    (s : UnorderedSet K) (n : Nat) (hs : history hash c ops = some s) :
    ∃ t, Reserve hash s n = some t ∧
      BucketCount t = max (BucketCount s) n ∧
      (n ≤ BucketCount s → t = s) ∧
      (n > BucketCount s → ¬ (n < Size s ∨ n = BucketCount s) ∧ Rehash hash s n = some t ∧
        BucketCount t = n ∧ Size t = Size s ∧
        (∀ k, k ∈ t.buckets.flatten ↔ k ∈ s.buckets.flatten) ∧
        ∀ k, Find hash t k = Find hash s k) := by
  have hI := history_inv hs
  have hcap := hI.cap
  unfold BucketCount Size
  by_cases hn : n > s.buckets.length
  · obtain ⟨t, ht, hIt, hsz, hperm, _, hlen⟩ := Rehash_spec hI n
    have hno : ¬ (n < s.size ∨ n = s.buckets.length) := by omega
    have hl := hlen hno
    refine ⟨t, ?_, ?_, fun hle => absurd hn (by omega), fun _ =>
      ⟨hno, ht, hl, hsz, fun k => hperm.mem_iff, fun k => ?_⟩⟩
    · unfold Reserve
      rw [if_pos hn]
      exact ht
    · rw [hl]
      omega
    · rw [Bool.eq_iff_iff, Find_iff_mem hIt.placed, Find_iff_mem hI.placed]
      exact hperm.mem_iff
  · refine ⟨s, ?_, ?_, fun _ => rfl, fun h => absurd h hn⟩
    · unfold Reserve
      rw [if_neg hn]
    · omega

theorem C15_reserve_never_shrinks_witness :
    ∃ t, Reserve (fun k : Nat => k) { buckets := [[2], [1]], size := 2 } 5 = some t ∧
      BucketCount t = max (BucketCount ({ buckets := [[2], [1]], size := 2 } : UnorderedSet Nat)) 5 ∧
      (5 ≤ BucketCount ({ buckets := [[2], [1]], size := 2 } : UnorderedSet Nat) →
        t = { buckets := [[2], [1]], size := 2 }) ∧
      (5 > BucketCount ({ buckets := [[2], [1]], size := 2 } : UnorderedSet Nat) →
        ¬ (5 < Size ({ buckets := [[2], [1]], size := 2 } : UnorderedSet Nat) ∨
            5 = BucketCount ({ buckets := [[2], [1]], size := 2 } : UnorderedSet Nat)) ∧
        Rehash (fun k : Nat => k) { buckets := [[2], [1]], size := 2 } 5 = some t ∧
        BucketCount t = 5 ∧
        Size t = Size ({ buckets := [[2], [1]], size := 2 } : UnorderedSet Nat) ∧
        (∀ k, k ∈ t.buckets.flatten ↔
          k ∈ ({ buckets := [[2], [1]], size := 2 } : UnorderedSet Nat).buckets.flatten) ∧
        ∀ k, Find (fun k : Nat => k) t k =
          Find (fun k : Nat => k) { buckets := [[2], [1]], size := 2 } k) :=
  C15_reserve_never_shrinks (fun k : Nat => k) Ctor.default [Op.insert 1, Op.insert 2]
    { buckets := [[2], [1]], size := 2 } 5 (by decide)

/-! ## Erase, frame -/

/-- C16: on a table reached by a history, `Erase(k)` keeps `BucketCount()` and every bucket
other than bucket `Bucket(k)`; when `k` is absent (as on a table without buckets) the state
is unchanged; when `k` is present its bucket `l1 ++ k :: l2` (`k` not in `l1`) becomes
`l1 ++ l2`, `Size()` decreases by exactly 1 and `Find(k)` is false afterwards. -/
theorem C16_erase_frame (hash : K → Nat) (c : Ctor K) (ops : List (Op K))
    (s : UnorderedSet K) (k : K) (hs : history hash c ops = some s) :
    BucketCount (Erase hash s k) = BucketCount s ∧
    (∀ i, i ≠ Bucket hash s k → (Erase hash s k).buckets[i]? = s.buckets[i]?) ∧
    (BucketCount s = 0 → Erase hash s k = s) ∧
    (Find hash s k = false → Erase hash s k = s) ∧
    (Find hash s k = true → ∃ l1 l2, k ∉ l1 ∧
      s.buckets[Bucket hash s k]? = some (l1 ++ k :: l2) ∧
      (Erase hash s k).buckets[Bucket hash s k]? = some (l1 ++ l2) ∧
      Size (Erase hash s k) + 1 = Size s ∧ Find hash (Erase hash s k) k = false) := by
  have hI := history_inv hs
  obtain ⟨hI2, hlen, habs, hpres⟩ := Erase_spec hI k
  have hzero : BucketCount s = 0 → Find hash s k = false := by
    intro h0
    unfold BucketCount at h0
    unfold Find
    rw [dif_pos h0]
  refine ⟨hlen, fun i hi => ?_, fun h0 => habs (hzero h0), habs, fun hf => ?_⟩
  · cases hf : Find hash s k
    · rw [habs hf]
    · obtain ⟨b, hb, hk⟩ := (Find_iff hash s k).mp hf
      rw [Erase_present hash s k hb hk]
      exact List.getElem?_set_ne (fun h => hi h.symm)
  · obtain ⟨b, hb, hk⟩ := (Find_iff hash s k).mp hf
    obtain ⟨l1, l2, hk1, hb12, her⟩ := List.exists_erase_eq hk
    obtain ⟨hsz, hperm⟩ := hpres hf
    have hnd := hperm.nodup_iff.mp hI.nodup
    refine ⟨l1, l2, hk1, ?_, ?_, hsz, ?_⟩
    · rw [← hb12]
      exact hb
    · rw [Erase_present hash s k hb hk, ← her]
      show (s.buckets.set (GetIndex hash k s.buckets.length) (b.erase k))[
        GetIndex hash k s.buckets.length]? = _
      rw [List.getElem?_set_self (List.getElem?_eq_some.mp hb).1]
    · cases hf2 : Find hash (Erase hash s k) k
      · rfl
      · exact absurd ((Find_iff_mem hI2.placed k).mp hf2) (List.nodup_cons.mp hnd).1

theorem C16_erase_frame_witness :
    BucketCount (Erase (fun k : Nat => k) { buckets := [[], [1, 5], [2], []], size := 3 } 5) =
      BucketCount ({ buckets := [[], [1, 5], [2], []], size := 3 } : UnorderedSet Nat) ∧
    (∀ i, i ≠ Bucket (fun k : Nat => k) { buckets := [[], [1, 5], [2], []], size := 3 } 5 →
      (Erase (fun k : Nat => k) { buckets := [[], [1, 5], [2], []], size := 3 } 5).buckets[i]? =
        ({ buckets := [[], [1, 5], [2], []], size := 3 } : UnorderedSet Nat).buckets[i]?) ∧
    (BucketCount ({ buckets := [[], [1, 5], [2], []], size := 3 } : UnorderedSet Nat) = 0 →
      Erase (fun k : Nat => k) { buckets := [[], [1, 5], [2], []], size := 3 } 5 =
        { buckets := [[], [1, 5], [2], []], size := 3 }) ∧
    (Find (fun k : Nat => k) { buckets := [[], [1, 5], [2], []], size := 3 } 5 = false →
      Erase (fun k : Nat => k) { buckets := [[], [1, 5], [2], []], size := 3 } 5 =
        { buckets := [[], [1, 5], [2], []], size := 3 }) ∧
    (Find (fun k : Nat => k) { buckets := [[], [1, 5], [2], []], size := 3 } 5 = true →
      ∃ l1 l2, 5 ∉ l1 ∧
        ({ buckets := [[], [1, 5], [2], []], size := 3 } : UnorderedSet Nat).buckets[
          Bucket (fun k : Nat => k) { buckets := [[], [1, 5], [2], []], size := 3 } 5]? =
            some (l1 ++ 5 :: l2) ∧
        (Erase (fun k : Nat => k) { buckets := [[], [1, 5], [2], []], size := 3 } 5).buckets[
          Bucket (fun k : Nat => k) { buckets := [[], [1, 5], [2], []], size := 3 } 5]? =
            some (l1 ++ l2) ∧
        Size (Erase (fun k : Nat => k) { buckets := [[], [1, 5], [2], []], size := 3 } 5) + 1 =
          Size ({ buckets := [[], [1, 5], [2], []], size := 3 } : UnorderedSet Nat) ∧
        Find (fun k : Nat => k)
          (Erase (fun k : Nat => k) { buckets := [[], [1, 5], [2], []], size := 3 } 5) 5 =
            false) :=
  C16_erase_frame (fun k : Nat => k) Ctor.default [Op.insert 1, Op.insert 2, Op.insert 5]
    { buckets := [[], [1, 5], [2], []], size := 3 } 5 (by decide)

/-! ## Rehash, closed form -/

theorem pushAll_closed (hash : K → Nat) (keys : List K) :
    ∀ v : List (List K), 0 < v.length →
      ∃ w, keys.foldlM (pushKey hash) v = some w ∧ w.length = v.length ∧
        ∀ (j : Nat) (b : List K), v[j]? = some b →
          w[j]? = some (b ++ keys.filter (fun k => decide (hash k % v.length = j))) := by
  induction keys with
  | nil =>
    intro v _
    exact ⟨v, rfl, rfl, fun j b hb => by rw [List.filter_nil, List.append_nil]; exact hb⟩
  | cons k ks ih =>
    intro v h0
    obtain ⟨b0, hb0, hpush⟩ := pushKey_eq hash k h0
    have hidx := GetIndex_pos hash k h0
    have hl1 : (v.set (GetIndex hash k v.length) (b0 ++ [k])).length = v.length :=
      List.length_set _ _ _
    obtain ⟨w, hw, hlen, hclosed⟩ :=
      ih (v.set (GetIndex hash k v.length) (b0 ++ [k])) (by rw [hl1]; exact h0)
    refine ⟨w, ?_, hlen.trans hl1, fun j b hb => ?_⟩
    · rw [List.foldlM_cons, hpush]
      exact hw
    · rw [hl1] at hclosed
      by_cases hj : GetIndex hash k v.length = j
      · have hbb : b = b0 := by
          rw [hj, hb] at hb0
          exact Option.some.inj hb0
        have h1 : (v.set (GetIndex hash k v.length) (b0 ++ [k]))[j]? = some (b0 ++ [k]) := by
          rw [← hj]
          exact List.getElem?_set_self (List.getElem?_eq_some.mp hb0).1
        rw [hclosed j _ h1, hbb]
        have hk : hash k % v.length = j := by rw [← hidx, hj]
        simp only [List.filter_cons, hk, decide_True, if_true, List.append_assoc,
          List.singleton_append]
      · have h1 : (v.set (GetIndex hash k v.length) (b0 ++ [k]))[j]? = some b := by
          rw [List.getElem?_set_ne hj]
          exact hb
        rw [hclosed j _ h1]
        have hk : ¬ hash k % v.length = j := by rw [← hidx]; exact hj
        simp only [List.filter_cons, hk, decide_False, Bool.false_eq_true, if_false]

/-- C18: on every table, a `Rehash(n)` whose guard lets it run (`n >= Size()`,
`n != BucketCount()`) and whose target has a bucket for the stored keys (`n > 0`, or no key
stored) returns a table with the same `Size()`, `n` buckets, and as bucket `j` the keys `k`
with `hash(k) mod n = j` of the concatenation of the old buckets, in their order there. -/
theorem C18_rehash_is_stable_redistribution (hash : K → Nat) (s : UnorderedSet K) (n : Nat)
    (hn : ¬ (n < Size s ∨ n = BucketCount s)) (hdef : 0 < n ∨ s.buckets.flatten = []) :
    ∃ t, Rehash hash s n = some t ∧ Size t = Size s ∧ BucketCount t = n ∧
      ∀ j, j < n → t.buckets[j]? =
        some (s.buckets.flatten.filter (fun k => decide (hash k % n = j))) := by
  unfold Size BucketCount at hn
  unfold Rehash
  rw [if_neg hn, foldlM_flatten]
  rcases Nat.eq_zero_or_pos n with h0 | h0
  · have hfl : s.buckets.flatten = [] := by
      rcases hdef with h | h
      · omega
      · exact h
    rw [hfl, h0]
    exact ⟨{ buckets := [], size := s.size }, rfl, rfl, rfl, fun j hj => absurd hj (by omega)⟩
  · obtain ⟨w, hw, hlen, hclosed⟩ :=
      pushAll_closed hash s.buckets.flatten (List.replicate n []) (by simpa using h0)
    rw [List.length_replicate] at hlen hclosed
    refine ⟨{ buckets := w, size := s.size }, by rw [hw]; rfl, rfl, hlen, fun j hj => ?_⟩
    have := hclosed j [] (List.getElem?_replicate_of_lt hj)
    rw [List.nil_append] at this
    exact this

theorem C18_rehash_is_stable_redistribution_witness :
    ∃ t, Rehash (fun k : Nat => k) { buckets := [[], [1, 5], [2], []], size := 3 } 3 = some t ∧
      Size t = Size ({ buckets := [[], [1, 5], [2], []], size := 3 } : UnorderedSet Nat) ∧
      BucketCount t = 3 ∧
      ∀ j, j < 3 → t.buckets[j]? =
        some (({ buckets := [[], [1, 5], [2], []], size := 3 } : UnorderedSet Nat).buckets.flatten.filter
          (fun k => decide ((fun k : Nat => k) k % 3 = j))) :=
  C18_rehash_is_stable_redistribution (fun k : Nat => k)
    { buckets := [[], [1, 5], [2], []], size := 3 } 3 (by decide) (Or.inl (by decide))

/-- The table with buckets `[], [1, 5], [2], []` rehashed to three buckets: `5` stays in
front of `2` in the bucket they now share. -/
theorem Rehash_example :
    Rehash (fun k : Nat => k) { buckets := [[], [1, 5], [2], []], size := 3 } 3 =
      some { buckets := [[], [1], [5, 2]], size := 3 } := by
  decide

/-! ## Subscripts -/

theorem growth_not_refused {hash : K → Nat} {s : UnorderedSet K} (hI : Inv hash s)
    (h : s.size ≥ s.buckets.length) :
    ¬ ((if s.buckets.isEmpty then 1 else s.buckets.length * 2) < s.size ∨
        (if s.buckets.isEmpty then 1 else s.buckets.length * 2) = s.buckets.length) := by
  have hcap := hI.cap
  cases hb : s.buckets with
  | nil =>
    rw [hb] at hcap
    simp only [List.isEmpty_nil, if_true, List.length_nil]
    simp only [List.length_nil] at hcap
    omega
  | cons a l =>
    rw [hb] at hcap h
    simp only [List.isEmpty_cons, Bool.false_eq_true, if_false]
    simp only [List.length_cons] at hcap h ⊢
    omega

/-- The push fails to be defined exactly when its subscript is out of range. -/
theorem pushKey_none_iff (hash : K → Nat) (v : List (List K)) (key : K) :
    pushKey hash v key = none ↔ v.length ≤ GetIndex hash key v.length := by
  unfold pushKey
  cases h : v[GetIndex hash key v.length]? with
  | none =>
    simp only [true_iff]
    exact List.getElem?_eq_none_iff.mp h
  | some b =>
    have := (List.getElem?_eq_some.mp h).1
    constructor
    · intro h2
      cases h2
    · intro h2
      omega

/-- C19: in every object of every client program (constructors, Insert, Erase, Rehash,
Reserve, Clear, copy and move) no statement subscripts the bucket array out of range: the
program returns, and on each object every member call returns; the subscript of `Find` and
`Erase` is below the bucket count of a non-empty array; in `Insert` of an absent key the
growth call is not refused by the guard of `Rehash` and the array is non-empty with the
subscript in range when the key is pushed; and in a `Rehash(n)` that runs, the subscript
`GetIndex(key, n)` of every stored key is below `n`, a rehash to 0 buckets running only on
a table without keys. -/
theorem C19_subscripts_in_range (hash : K → Nat) (cmds : List (Cmd K)) :
    ∃ w, program hash cmds = some w ∧ ∀ s ∈ w,
      (∀ op : Op K, ∃ t, op.apply hash s = some t) ∧
      (∀ key, s.buckets ≠ [] → GetIndex hash key s.buckets.length < s.buckets.length) ∧
      (∀ key, Find hash s key = false →
        (s.size ≥ s.buckets.length →
          ¬ ((if s.buckets.isEmpty then 1 else s.buckets.length * 2) < s.size ∨
            (if s.buckets.isEmpty then 1 else s.buckets.length * 2) = s.buckets.length)) ∧
        ∃ g, grow hash s = some g ∧ 0 < g.buckets.length ∧
          GetIndex hash key g.buckets.length < g.buckets.length) ∧
      (∀ n, ¬ (n < s.size ∨ n = s.buckets.length) →
        ∀ key ∈ s.buckets.flatten, 0 < n ∧ GetIndex hash key n < n) ∧
      (¬ (0 < s.size ∨ 0 = s.buckets.length) → s.buckets.flatten = []) := by
  obtain ⟨w, hw, hInv⟩ := program_spec hash cmds
  refine ⟨w, hw, fun s hs => ?_⟩
  have hI := hInv s hs
  have hpos : ∀ key ∈ s.buckets.flatten, 0 < s.size := by
    intro key hk
    rw [hI.count, ← length_flatten_eq]
    exact List.length_pos_of_mem hk
  refine ⟨fun op => ?_, fun key hne => ?_, fun key hf => ⟨growth_not_refused hI, ?_⟩,
    fun n hn key hk => ?_, fun h0 => ?_⟩
  · obtain ⟨t, ht, _⟩ := apply_spec hI op
    exact ⟨t, ht⟩
  · exact GetIndex_lt hash key (List.length_pos.mpr hne)
  · obtain ⟨g, hg, _, _, _, hlt, _⟩ := grow_spec hI
    have h0 : 0 < g.buckets.length := by omega
    exact ⟨g, hg, h0, GetIndex_lt hash key h0⟩
  · have := hpos key hk
    have h0 : 0 < n := by omega
    exact ⟨h0, GetIndex_lt hash key h0⟩
  · cases hfl : s.buckets.flatten with
    | nil => rfl
    | cons a l =>
      have := hpos a (by rw [hfl]; exact List.mem_cons_self _ _)
      omega

/-! ## Bucket count after distinct inserts -/

theorem Insert_Tight {hash : K → Nat} {s : UnorderedSet K} (hI : Inv hash s) (hT : Tight s)
    (key : K) :
    ∃ t, Insert hash s key = some t ∧ Inv hash t ∧ Tight t ∧
      ∀ k, k ∈ t.buckets.flatten ↔ k = key ∨ k ∈ s.buckets.flatten := by
  cases h : Find hash s key
  · obtain ⟨t, ht, hIt, hsz, hperm, hsame, hgrow⟩ := Insert_absent hI h
    refine ⟨t, ht, hIt, ?_, fun k => by rw [hperm.mem_iff, List.mem_cons]⟩
    rcases hT with ⟨h0, hz⟩ | ⟨e, he, hle, hlt⟩
    · have hl := hgrow (by omega)
      rw [if_pos h0] at hl
      exact Or.inr ⟨0, by rw [hl]; rfl, by rw [hsz, hz]; exact Nat.le_refl _,
        by rw [hsz, hz]; decide⟩
    · have hpos : 0 < 2 ^ e := Nat.two_pow_pos e
      by_cases hfull : s.size < s.buckets.length
      · have hl := hsame hfull
        exact Or.inr ⟨e, by rw [hl, he], by omega, by omega⟩
      · have hl := hgrow (by omega)
        rw [if_neg (by omega)] at hl
        have h2 : 2 ^ (e + 1) = 2 ^ e * 2 := pow_succ 2 e
        exact Or.inr ⟨e + 1, by rw [hl, he, h2], by omega, by omega⟩
  · refine ⟨s, Insert_present hash s key h, hI, hT, fun k => ?_⟩
    have hk : key ∈ s.buckets.flatten := (Find_iff_mem hI.placed key).mp h
    constructor
    · exact fun hm => Or.inr hm
    · rintro (rfl | hm)
      · exact hk
      · exact hm

theorem insertAll_Tight {hash : K → Nat} (keys : List K) :
    ∀ s : UnorderedSet K, Inv hash s → Tight s →
      ∃ t, keys.foldlM (Insert hash) s = some t ∧ Inv hash t ∧ Tight t ∧
        ∀ k, k ∈ t.buckets.flatten ↔ k ∈ s.buckets.flatten ∨ k ∈ keys := by
  induction keys with
  | nil =>
    intro s hI hT
    exact ⟨s, rfl, hI, hT, fun k => by simp⟩
  | cons x xs ih =>
    intro s hI hT
    obtain ⟨t1, ht1, hI1, hT1, hm1⟩ := Insert_Tight hI hT x
    obtain ⟨t, ht, hIt, hTt, hm⟩ := ih t1 hI1 hT1
    refine ⟨t, ?_, hIt, hTt, fun k => ?_⟩
    · rw [List.foldlM_cons, ht1]
      exact ht
    · rw [hm, hm1, List.mem_cons]
      constructor
      · rintro ((h1 | h1) | h1)
        · exact Or.inr (Or.inl h1)
        · exact Or.inl h1
        · exact Or.inr (Or.inr h1)
      · rintro (h1 | h1 | h1)
        · exact Or.inl (Or.inr h1)
        · exact Or.inl (Or.inl h1)
        · exact Or.inr h1

theorem Tight_clog {e n : Nat} (hle : n ≤ 2 ^ e) (hlt : 2 ^ e < 2 * n) :
    e = Nat.clog 2 n := by
  have h1 : Nat.clog 2 n ≤ e := (Nat.le_pow_iff_clog_le (by decide)).mp hle
  have h2 : n ≤ 2 ^ Nat.clog 2 n := Nat.le_pow_clog (by decide) n
  rcases Nat.lt_or_ge (Nat.clog 2 n) e with hlt2 | hge
  · have h3 : 2 ^ (Nat.clog 2 n + 1) ≤ 2 ^ e :=
      (Nat.pow_le_pow_iff_right (by decide)).mpr hlt2
    have h4 : 2 ^ (Nat.clog 2 n + 1) = 2 ^ Nat.clog 2 n * 2 := pow_succ 2 _
    omega
  · omega

/-- C20: for every hash function and every sequence of `Insert` calls on a
default-constructed table whose keys comprise exactly `n >= 1` distinct ones, the calls
return and the final `BucketCount()` is `2 ^ clog 2 n`, the smallest power of two that is at
least `n`: it is at least `n` and at most every power of two that is at least `n`. -/
theorem C20_bucket_count_least_power_of_two (hash : K → Nat) (keys : List K) (n : Nat)
    (hn : 1 ≤ n) (hd : keys.dedup.length = n) :
    ∃ s, run hash new (keys.map Op.insert) = some s ∧
      BucketCount s = 2 ^ Nat.clog 2 n ∧ n ≤ BucketCount s ∧
      ∀ e, n ≤ 2 ^ e → BucketCount s ≤ 2 ^ e := by
  obtain ⟨s, hs, hI, hT, hm⟩ :=
    insertAll_Tight keys new (Inv_new hash) (Or.inl ⟨rfl, rfl⟩)
  have hmem : ∀ k, k ∈ s.buckets.flatten ↔ k ∈ keys.toFinset := by
    intro k
    rw [hm, List.mem_toFinset]
    simp [new]
  have hsize : s.size = n := by
    rw [size_eq_card hI hmem, List.card_toFinset, hd]
  refine ⟨s, by rw [run_insert]; exact hs, ?_⟩
  unfold BucketCount
  rcases hT with ⟨_, hz⟩ | ⟨e, he, hle, hlt⟩
  · omega
  · rw [hsize] at hle hlt
    have hec := Tight_clog hle hlt
    refine ⟨by rw [he, hec], by rw [he]; exact hle, fun e2 h2 => ?_⟩
    rw [he, hec]
    exact (Nat.pow_le_pow_iff_right (by decide)).mpr
      ((Nat.le_pow_iff_clog_le (by decide)).mp h2)

theorem C20_bucket_count_least_power_of_two_witness :
    ∃ s, run (fun k : Nat => k) new ([7, 3, 7, 9, 3, 12, 20].map Op.insert) = some s ∧
      BucketCount s = 2 ^ Nat.clog 2 5 ∧ 5 ≤ BucketCount s ∧
      ∀ e, 5 ≤ 2 ^ e → BucketCount s ≤ 2 ^ e :=
  C20_bucket_count_least_power_of_two (fun k : Nat => k) [7, 3, 7, 9, 3, 12, 20] 5
    (by decide) (by decide)

/-- Five distinct keys among seven inserts: eight buckets. -/
theorem run_example :
    (run (fun k : Nat => k) new ([7, 3, 7, 9, 3, 12, 20].map Op.insert)).map BucketCount =
      some 8 := by
  decide

/-! ## Running out of memory -/

theorem pushKeyA_cases (hash : K → Nat) {v w : List (List K)} {key : K}
    (h : pushKey hash v key = some w) (fuel : Nat) :
    pushKeyA hash v key fuel = Alloc.badAlloc ∨
      ∃ f, fuel = f + 1 ∧ pushKeyA hash v key fuel = Alloc.ok w f := by
  unfold pushKey at h
  unfold pushKeyA
  cases hv : v[GetIndex hash key v.length]? with
  | none => rw [hv] at h; cases h
  | some b =>
    rw [hv] at h
    cases h
    cases fuel with
    | zero => exact Or.inl rfl
    | succ f => exact Or.inr ⟨f, rfl, rfl⟩

theorem fillA_cases (hash : K → Nat) (keys : List K) :
    ∀ (v w : List (List K)) (fuel : Nat), keys.foldlM (pushKey hash) v = some w →
      fillA hash keys v fuel = Alloc.badAlloc ∨
        ∃ f, fuel = f + keys.length ∧ fillA hash keys v fuel = Alloc.ok w f := by
  induction keys with
  | nil =>
    intro v w fuel h
    cases h
    exact Or.inr ⟨fuel, rfl, rfl⟩
  | cons k ks ih =>
    intro v w fuel h
    rw [List.foldlM_cons] at h
    obtain ⟨v1, hv1, hrest⟩ := Option.bind_eq_some.mp h
    rcases pushKeyA_cases hash hv1 fuel with hp | ⟨f, hf, hp⟩
    · left
      simp only [fillA, hp]
    · rcases ih v1 w f hrest with hr | ⟨f2, hf2, hr⟩
      · left
        simp only [fillA, hp, hr]
      · right
        refine ⟨f2, ?_, ?_⟩
        · rw [List.length_cons]; omega
        · simp only [fillA, hp, hr]

theorem fillAllA_cases (hash : K → Nat) (bs : List (List K)) :
    ∀ (v w : List (List K)) (fuel : Nat),
      bs.foldlM (fun nb (b : List K) => b.foldlM (pushKey hash) nb) v = some w →
      fillAllA hash bs v fuel = Alloc.badAlloc ∨
        ∃ f, fuel = f + bs.flatten.length ∧ fillAllA hash bs v fuel = Alloc.ok w f := by
  induction bs with
  | nil =>
    intro v w fuel h
    cases h
    exact Or.inr ⟨fuel, rfl, rfl⟩
  | cons b bs ih =>
    intro v w fuel h
    rw [List.foldlM_cons] at h
    obtain ⟨v1, hv1, hrest⟩ := Option.bind_eq_some.mp h
    rcases fillA_cases hash b v v1 fuel hv1 with hp | ⟨f, hf, hp⟩
    · left
      simp only [fillAllA, hp]
    · rcases ih v1 w f hrest with hr | ⟨f2, hf2, hr⟩
      · left
        simp only [fillAllA, hp, hr]
      · right
        refine ⟨f2, ?_, ?_⟩
        · rw [List.flatten_cons, List.length_append]; omega
        · simp only [fillAllA, hp, hr]

theorem RehashA_threw (hash : K → Nat) (s t : UnorderedSet K) (n fuel : Nat)
    (h : RehashA hash s n fuel = Outcome.threw t) : t = s := by
  unfold RehashA at h
  split at h
  · cases h
  · cases fuel with
    | zero =>
      simp only at h
      cases h
      rfl
    | succ f =>
      simp only at h
      split at h
      · cases h
      · cases h; rfl
      · cases h

theorem ReserveA_threw (hash : K → Nat) (s t : UnorderedSet K) (n fuel : Nat)
    (h : ReserveA hash s n fuel = Outcome.threw t) : t = s := by
  unfold ReserveA at h
  split at h
  · exact RehashA_threw hash s t n fuel h
  · cases h

theorem RehashA_cases (hash : K → Nat) {s t : UnorderedSet K} {n : Nat}
    (h : Rehash hash s n = some t) (fuel : Nat) :
    RehashA hash s n fuel = Outcome.threw s ∨ ∃ f, RehashA hash s n fuel = Outcome.done t f := by
  unfold Rehash at h
  unfold RehashA
  by_cases hn : n < s.size ∨ n = s.buckets.length
  · rw [if_pos hn] at h ⊢
    cases h
    exact Or.inr ⟨fuel, rfl⟩
  · rw [if_neg hn] at h ⊢
    obtain ⟨w, hw, ht⟩ := Option.map_eq_some'.mp h
    cases fuel with
    | zero => exact Or.inl rfl
    | succ f =>
      rcases fillAllA_cases hash s.buckets _ w f hw with hp | ⟨f2, _, hp⟩
      · left
        simp only [hp]
      · right
        exact ⟨f2, by simp only [hp, ht]⟩

theorem growA_cases (hash : K → Nat) {s g : UnorderedSet K} (h : grow hash s = some g)
    (fuel : Nat) :
    growA hash s fuel = Outcome.threw s ∨ ∃ f, growA hash s fuel = Outcome.done g f := by
  unfold grow at h
  unfold growA
  split
  · rename_i hge
    rw [if_pos hge] at h
    exact RehashA_cases hash h fuel
  · rename_i hge
    rw [if_neg hge] at h
    cases h
    exact Or.inr ⟨fuel, rfl⟩

theorem InsertA_cases (hash : K → Nat) {s t : UnorderedSet K} {key : K}
    (h : Insert hash s key = some t) (fuel : Nat) :
    InsertA hash s key fuel = Outcome.threw s ∨
      (∃ g, Find hash s key = false ∧ grow hash s = some g ∧
        InsertA hash s key fuel = Outcome.threw g) ∨
      ∃ f, InsertA hash s key fuel = Outcome.done t f := by
  unfold Insert at h
  unfold InsertA
  cases hf : Find hash s key
  · rw [hf] at h
    simp only [Bool.false_eq_true, if_false] at h ⊢
    obtain ⟨g, hg, hrest⟩ := Option.bind_eq_some.mp h
    obtain ⟨nb, hnb, ht⟩ := Option.map_eq_some'.mp hrest
    rcases growA_cases hash hg fuel with hgA | ⟨f, hgA⟩
    · left
      simp only [hgA]
    · rcases pushKeyA_cases hash hnb f with hp | ⟨f2, _, hp⟩
      · right; left
        exact ⟨g, trivial, hg, by simp only [hgA, hp]⟩
      · right; right
        exact ⟨f2, by simp only [hgA, hp, ht]⟩
  · rw [hf] at h
    simp only [if_true] at h ⊢
    cases h
    exact Or.inr (Or.inr ⟨fuel, rfl⟩)

theorem insertAllA_cases (hash : K → Nat) (xs : List K) :
    ∀ (s t : UnorderedSet K) (fuel : Nat), xs.foldlM (Insert hash) s = some t →
      insertAllA hash xs s fuel = Built.failed ∨
        ∃ f, insertAllA hash xs s fuel = Built.built t f := by
  induction xs with
  | nil =>
    intro s t fuel h
    cases h
    exact Or.inr ⟨fuel, rfl⟩
  | cons x xs ih =>
    intro s t fuel h
    rw [List.foldlM_cons] at h
    obtain ⟨s1, hs1, hrest⟩ := Option.bind_eq_some.mp h
    rcases InsertA_cases hash hs1 fuel with hA | ⟨g, _, _, hA⟩ | ⟨f, hA⟩
    · left
      simp only [insertAllA, hA]
    · left
      simp only [insertAllA, hA]
    · rcases ih s1 t f hrest with hr | ⟨f2, hr⟩
      · left
        simp only [insertAllA, hA, hr]
      · right
        exact ⟨f2, by simp only [insertAllA, hA, hr]⟩

theorem fillA_enough (hash : K → Nat) (keys : List K) :
    ∀ (v w : List (List K)) (fuel : Nat), keys.foldlM (pushKey hash) v = some w →
      keys.length ≤ fuel → fillA hash keys v fuel = Alloc.ok w (fuel - keys.length) := by
  induction keys with
  | nil =>
    intro v w fuel h _
    cases h
    rfl
  | cons k ks ih =>
    intro v w fuel h hle
    rw [List.length_cons] at hle
    rw [List.foldlM_cons] at h
    obtain ⟨v1, hv1, hrest⟩ := Option.bind_eq_some.mp h
    rcases pushKeyA_cases hash hv1 fuel with hp | ⟨f, hf, hp⟩
    · unfold pushKeyA at hp
      split at hp
      · cases hp
      · split at hp
        · omega
        · cases hp
    · have := ih v1 w f hrest (by omega)
      simp only [fillA, hp, this, List.length_cons]
      congr 1
      omega

theorem fillAllA_enough (hash : K → Nat) (bs : List (List K)) :
    ∀ (v w : List (List K)) (fuel : Nat),
      bs.foldlM (fun nb (b : List K) => b.foldlM (pushKey hash) nb) v = some w →
      bs.flatten.length ≤ fuel →
      fillAllA hash bs v fuel = Alloc.ok w (fuel - bs.flatten.length) := by
  induction bs with
  | nil =>
    intro v w fuel h _
    cases h
    rfl
  | cons b bs ih =>
    intro v w fuel h hle
    rw [List.flatten_cons, List.length_append] at hle
    rw [List.foldlM_cons] at h
    obtain ⟨v1, hv1, hrest⟩ := Option.bind_eq_some.mp h
    have h1 := fillA_enough hash b v v1 fuel hv1 (by omega)
    have h2 := ih v1 w (fuel - b.length) hrest (by omega)
    simp only [fillAllA, h1, h2, List.flatten_cons, List.length_append]
    congr 1
    omega

theorem RehashA_enough (hash : K → Nat) {s t : UnorderedSet K} {n : Nat}
    (h : Rehash hash s n = some t) {fuel : Nat} (hle : s.buckets.flatten.length + 1 ≤ fuel) :
    ∃ f, RehashA hash s n fuel = Outcome.done t f ∧ fuel ≤ f + s.buckets.flatten.length + 1 := by
  unfold Rehash at h
  unfold RehashA
  by_cases hn : n < s.size ∨ n = s.buckets.length
  · rw [if_pos hn] at h ⊢
    cases h
    exact ⟨fuel, rfl, by omega⟩
  · rw [if_neg hn] at h ⊢
    obtain ⟨w, hw, ht⟩ := Option.map_eq_some'.mp h
    cases fuel with
    | zero => omega
    | succ f =>
      have := fillAllA_enough hash s.buckets _ w f hw (by omega)
      exact ⟨f - s.buckets.flatten.length, by simp only [this, ht], by omega⟩

theorem InsertA_enough (hash : K → Nat) {s t : UnorderedSet K} {key : K}
    (h : Insert hash s key = some t) {fuel : Nat} (hle : s.buckets.flatten.length + 2 ≤ fuel) :
    ∃ f, InsertA hash s key fuel = Outcome.done t f := by
  unfold Insert at h
  unfold InsertA
  cases hf : Find hash s key
  · rw [hf] at h
    simp only [Bool.false_eq_true, if_false] at h ⊢
    obtain ⟨g, hg, hrest⟩ := Option.bind_eq_some.mp h
    obtain ⟨nb, hnb, ht⟩ := Option.map_eq_some'.mp hrest
    have hgA : ∃ f, growA hash s fuel = Outcome.done g f ∧ 1 ≤ f := by
      unfold grow at hg
      unfold growA
      split
      · rename_i hge
        rw [if_pos hge] at hg
        obtain ⟨f, hf1, hf2⟩ := RehashA_enough hash hg (by omega : _ + 1 ≤ fuel)
        exact ⟨f, hf1, by omega⟩
      · rename_i hge
        rw [if_neg hge] at hg
        cases hg
        exact ⟨fuel, rfl, by omega⟩
    obtain ⟨f, hgA1, hf1⟩ := hgA
    rcases pushKeyA_cases hash hnb f with hp | ⟨f2, _, hp⟩
    · unfold pushKeyA at hp
      split at hp
      · cases hp
      · split at hp
        · omega
        · cases hp
    · exact ⟨f2, by simp only [hgA1, hp, ht]⟩
  · rw [hf] at h
    simp only [if_true] at h ⊢
    cases h
    exact ⟨fuel, rfl⟩

/-- C17, as stated, fails: on the table reached by `Insert(1)` from the default table,
`Insert(2)` triggers growth. When the two allocations of the growth step succeed and the
allocation for the new key fails, the exception leaves `Insert` with two buckets where
there was one. (With no or one successful allocation the table is left as it was, with
three the call returns.) -/
theorem C17_counterexample :
    history (fun k : Nat => k) Ctor.default [Op.insert 1] = some { buckets := [[1]], size := 1 } ∧
      growthTriggered (fun k : Nat => k) { buckets := [[1]], size := 1 } 2 = true ∧
      InsertA (fun k : Nat => k) { buckets := [[1]], size := 1 } 2 2 =
        Outcome.threw { buckets := [[], [1]], size := 1 } ∧
      ({ buckets := [[], [1]], size := 1 } : UnorderedSet Nat) ≠ { buckets := [[1]], size := 1 } ∧
      BucketCount ({ buckets := [[], [1]], size := 1 } : UnorderedSet Nat) ≠
        BucketCount ({ buckets := [[1]], size := 1 } : UnorderedSet Nat) ∧
      InsertA (fun k : Nat => k) { buckets := [[1]], size := 1 } 2 1 =
        Outcome.threw { buckets := [[1]], size := 1 } ∧
      InsertA (fun k : Nat => k) { buckets := [[1]], size := 1 } 2 3 =
        Outcome.done { buckets := [[2], [1]], size := 2 } 0 := by
  refine ⟨by decide, by decide, by decide, by decide, by decide, by decide, by decide⟩

/-- C17, amended: on a table reached by a history, whichever allocation fails, `Rehash`
and `Reserve` that throw leave the table exactly as it was; an `Insert` that throws leaves
the table exactly as it was, or, when the allocation for the new key fails after a
triggered growth, as the completed growth step left it (bucket count doubled or 1, same
`Size()`, same `Find`); no call has undefined behaviour; with `Size() + 2` allocations
available the calls return what they return without failure; and a constructor either
builds the table it builds without failure or fails and leaves no table. -/
theorem C17_failure_safety (hash : K → Nat) (c : Ctor K) (ops : List (Op K))
    (s : UnorderedSet K) (n : Nat) (key : K) (xs : List K) (count fuel : Nat)
    (hs : history hash c ops = some s) :
    (∀ t, RehashA hash s n fuel = Outcome.threw t → t = s) ∧
    (∀ t, ReserveA hash s n fuel = Outcome.threw t → t = s) ∧
    (∀ t, InsertA hash s key fuel = Outcome.threw t →
      t = s ∨ (growthTriggered hash s key = true ∧ grow hash s = some t ∧
        BucketCount t = (if BucketCount s = 0 then 1 else BucketCount s * 2) ∧
        Size t = Size s ∧ ∀ k, Find hash t k = Find hash s k)) ∧
    RehashA hash s n fuel ≠ Outcome.undefined ∧
    ReserveA hash s n fuel ≠ Outcome.undefined ∧
    InsertA hash s key fuel ≠ Outcome.undefined ∧
    (Size s + 1 ≤ fuel → ∃ t f, RehashA hash s n fuel = Outcome.done t f ∧
      Rehash hash s n = some t) ∧
    (Size s + 2 ≤ fuel → ∃ t f, InsertA hash s key fuel = Outcome.done t f ∧
      Insert hash s key = some t) ∧
    (newSizedA count fuel = (Built.failed : Built K) ∨
      ∃ f, newSizedA count fuel = (Built.built (newSized count) f : Built K)) ∧
    (newRangeA hash xs fuel = Built.failed ∨
      ∃ t f, newRangeA hash xs fuel = Built.built t f ∧ newRange hash xs = some t) := by
  have hI := history_inv hs
  obtain ⟨r, hr, _⟩ := Rehash_spec hI n
  obtain ⟨i, hi, _⟩ := Insert_spec hI key
  have hrA := RehashA_cases hash hr fuel
  have hiA := InsertA_cases hash hi fuel
  have hfl : s.buckets.flatten.length = s.size := by rw [length_flatten_eq, hI.count]
  refine ⟨fun t => RehashA_threw hash s t n fuel, fun t => ReserveA_threw hash s t n fuel,
    ?_, ?_, ?_, ?_, ?_, ?_, ?_, ?_⟩
  · intro t ht
    rcases hiA with hA | ⟨g, hf, hg, hA⟩ | ⟨f, hA⟩
    · rw [hA] at ht
      cases ht
      exact Or.inl rfl
    · rw [hA] at ht
      cases ht
      obtain ⟨g2, hg2, hIg, hsz, hperm, _, hsame, hgrow⟩ := grow_spec hI
      rw [hg] at hg2
      cases hg2
      by_cases hlt : s.size < s.buckets.length
      · exact Or.inl (hsame hlt)
      · right
        refine ⟨?_, hg, hgrow (by omega), hsz, fun k => ?_⟩
        · unfold growthTriggered
          rw [hf]
          simp only [Bool.not_false, Bool.true_and, decide_eq_true_eq]
          omega
        · rw [Bool.eq_iff_iff, Find_iff_mem hIg.placed, Find_iff_mem hI.placed]
          exact hperm.mem_iff
    · rw [hA] at ht
      cases ht
  · rcases hrA with hA | ⟨f, hA⟩ <;> rw [hA] <;> exact Outcome.noConfusion
  · unfold ReserveA
    split
    · rcases hrA with hA | ⟨f, hA⟩ <;> rw [hA] <;> exact Outcome.noConfusion
    · exact Outcome.noConfusion
  · rcases hiA with hA | ⟨g, _, _, hA⟩ | ⟨f, hA⟩ <;> rw [hA] <;> exact Outcome.noConfusion
  · intro hle
    unfold Size at hle
    obtain ⟨f, hf, _⟩ := RehashA_enough hash hr (by omega : s.buckets.flatten.length + 1 ≤ fuel)
    exact ⟨r, f, hf, hr⟩
  · intro hle
    unfold Size at hle
    obtain ⟨f, hf⟩ := InsertA_enough hash hi (by omega : s.buckets.flatten.length + 2 ≤ fuel)
    exact ⟨i, f, hf, hi⟩
  · cases fuel with
    | zero => exact Or.inl rfl
    | succ f => exact Or.inr ⟨f, rfl⟩
  · obtain ⟨t, ht, _⟩ := newRange_spec hash xs
    cases fuel with
    | zero => exact Or.inl rfl
    | succ f =>
      rcases insertAllA_cases hash xs _ t f ht with hA | ⟨f2, hA⟩
      · exact Or.inl hA
      · exact Or.inr ⟨t, f2, hA, ht⟩

theorem C17_failure_safety_witness :
    (∀ t, RehashA (fun k : Nat => k) { buckets := [[1]], size := 1 } 2 2 = Outcome.threw t →
      t = { buckets := [[1]], size := 1 }) ∧
    (∀ t, ReserveA (fun k : Nat => k) { buckets := [[1]], size := 1 } 2 2 = Outcome.threw t →
      t = { buckets := [[1]], size := 1 }) ∧
    (∀ t, InsertA (fun k : Nat => k) { buckets := [[1]], size := 1 } 2 2 = Outcome.threw t →
      t = { buckets := [[1]], size := 1 } ∨
        (growthTriggered (fun k : Nat => k) { buckets := [[1]], size := 1 } 2 = true ∧
          grow (fun k : Nat => k) { buckets := [[1]], size := 1 } = some t ∧
          BucketCount t =
            (if BucketCount ({ buckets := [[1]], size := 1 } : UnorderedSet Nat) = 0 then 1
              else BucketCount ({ buckets := [[1]], size := 1 } : UnorderedSet Nat) * 2) ∧
          Size t = Size ({ buckets := [[1]], size := 1 } : UnorderedSet Nat) ∧
          ∀ k, Find (fun k : Nat => k) t k =
            Find (fun k : Nat => k) { buckets := [[1]], size := 1 } k)) ∧
    RehashA (fun k : Nat => k) { buckets := [[1]], size := 1 } 2 2 ≠ Outcome.undefined ∧
    ReserveA (fun k : Nat => k) { buckets := [[1]], size := 1 } 2 2 ≠ Outcome.undefined ∧
    InsertA (fun k : Nat => k) { buckets := [[1]], size := 1 } 2 2 ≠ Outcome.undefined ∧
    (Size ({ buckets := [[1]], size := 1 } : UnorderedSet Nat) + 1 ≤ 2 →
      ∃ t f, RehashA (fun k : Nat => k) { buckets := [[1]], size := 1 } 2 2 = Outcome.done t f ∧
        Rehash (fun k : Nat => k) { buckets := [[1]], size := 1 } 2 = some t) ∧
    (Size ({ buckets := [[1]], size := 1 } : UnorderedSet Nat) + 2 ≤ 2 →
      ∃ t f, InsertA (fun k : Nat => k) { buckets := [[1]], size := 1 } 2 2 = Outcome.done t f ∧
        Insert (fun k : Nat => k) { buckets := [[1]], size := 1 } 2 = some t) ∧
    (newSizedA 3 2 = (Built.failed : Built Nat) ∨
      ∃ f, newSizedA 3 2 = (Built.built (newSized 3) f : Built Nat)) ∧
    (newRangeA (fun k : Nat => k) [1, 2] 2 = Built.failed ∨
      ∃ t f, newRangeA (fun k : Nat => k) [1, 2] 2 = Built.built t f ∧
        newRange (fun k : Nat => k) [1, 2] = some t) :=
  C17_failure_safety (fun k : Nat => k) Ctor.default [Op.insert 1]
    { buckets := [[1]], size := 1 } 2 2 [1, 2] 3 2 (by decide)

end UnorderedSet
